import Mathlib

/-!
Shallow embedding of the Wwise SoundBank container engine (package bnk,
src/bnk/file.go) together with proofs about its parsing, serialization and
wem-replacement operations.

Modelling conventions:
* Bytes are natural numbers; a byte list stands for the contents a Go reader
  yields.  Hypotheses of theorems that need genuine bytes require values < 256.
* uint32 values are naturals, with an explicit `% 2^32` exactly where the Go
  code truncates (`uint32(...)` casts, uint32 subtraction); int64 values are
  `Int` (the code never comes near 2^63).
* Lazy `io.SectionReader` views are materialized as the byte list a full
  `io.Copy` of the view would produce: a section `[off, off+n)` of data `d`
  yields `(d.drop off).take n`, which is exactly the clipped-at-EOF content.
  The synthetic `InfiniteReaderAt 0` padding reader transfers one zero byte
  per call until its section is exhausted, so its net content is
  `List.replicate n 0`.
* Go panics (duplicate index id, oversized replacement, wrong-header dispatch,
  nil-pointer dereferences) abort the operation; they are modelled as
  distinguished error results carrying the information the panic reports.
* `binary.Read` failures (io.EOF mid-struct, io.ErrUnexpectedEOF) all abort
  the parse; they are collapsed into one `ioError` result.
* The parse loop of `NewFile` consumes at least 8 bytes per iteration, so it
  is given `data.length + 1` fuel; the `outOfFuel` result is unreachable for
  that budget and appears in no theorem below.
-/

namespace Bnk

/-- Decode four bytes as a little-endian unsigned 32-bit value, the way
binary.Read little-endian does for a uint32 field. -/
def u32dec (bs : List Nat) : Nat :=
  bs.getD 0 0 + 256 * bs.getD 1 0 + 65536 * bs.getD 2 0 + 16777216 * bs.getD 3 0

/-- Encode a value as four little-endian bytes, the way binary.Write
little-endian does for a uint32 field (higher bits are truncated). -/
def u32enc (n : Nat) : List Nat :=
  [n % 256, n / 256 % 256, n / 65536 % 256, n / 16777216 % 256]

/-- Wrapping uint32 subtraction, for the Go expression
`hdr.Length - BKHD_SECTION_BYTES` which underflows below 8. -/
def wsub32 (a b : Nat) : Nat := (a + 4294967296 - b) % 4294967296

/-- Identifier bytes of the BKHD (bank header) section. -/
def bkhdHeaderId : List Nat := [66, 75, 72, 68]

/-- Identifier bytes of the DIDX (data index) section. -/
def didxHeaderId : List Nat := [68, 73, 68, 88]

/-- Identifier bytes of the DATA section. -/
def dataHeaderId : List Nat := [68, 65, 84, 65]

/-- A SectionHeader represents a single Wwise SoundBank section header:
4 identifier bytes and a little-endian uint32 length. -/
structure SectionHeader where
  Identifier : List Nat
  Length : Nat
  deriving DecidableEq, Repr

/-- A BankDescriptor provides metadata about the overall SoundBank file. -/
structure BankDescriptor where
  Version : Nat
  BankId : Nat
  deriving DecidableEq, Repr

/-- A WemDescriptor represents the location of a single wem entity within the
SoundBank DATA section. -/
structure WemDescriptor where
  WemId : Nat
  Offset : Nat
  Length : Nat
  deriving DecidableEq, Repr

/-- A BankHeaderSection represents the BKHD section of a SoundBank file.
`RemainingReader` holds the bytes of the trailing region after the fixed
8-byte descriptor. -/
structure BankHeaderSection where
  Header : SectionHeader
  Descriptor : BankDescriptor
  RemainingReader : List Nat
  deriving DecidableEq, Repr

/-- A DataIndexSection represents the DIDX section of a SoundBank file.
The descriptor map is an insertion-ordered association list with unique keys,
standing for the Go `map[uint32]WemDescriptor`. -/
structure DataIndexSection where
  Header : SectionHeader
  WemCount : Nat
  WemIds : List Nat
  DescriptorMap : List (Nat × WemDescriptor)
  deriving DecidableEq, Repr

/-- A Wem represents a single sound entity contained within a SoundBank file.
`Reader` holds the payload view bytes, `RemainingReader` the trailing-padding
view bytes, `RemainingLength` the computed padding length (an int64 in Go,
possibly negative for overlapping descriptors). -/
structure Wem where
  Reader : List Nat
  Descriptor : WemDescriptor
  RemainingReader : List Nat
  RemainingLength : Int
  deriving DecidableEq, Repr

/-- A DataSection represents the DATA section of a SoundBank file. -/
structure DataSection where
  Header : SectionHeader
  DataStart : Nat
  Wems : List Wem
  deriving DecidableEq, Repr

/-- An UnknownSection represents an unknown section in a SoundBank file. -/
structure UnknownSection where
  Header : SectionHeader
  Reader : List Nat
  deriving DecidableEq, Repr

/-- A File represents an open Wwise SoundBank.  The closer, when present,
carries the result the underlying close operation would report. -/
structure File where
  closer : Option (Option Unit)
  BankHeaderSection : Option BankHeaderSection
  IndexSection : Option DataIndexSection
  DataSection : Option DataSection
  Others : List UnknownSection
  deriving DecidableEq, Repr

/-- The zero File allocated by `bnk := new(File)` at the start of NewFile. -/
def emptyFile : File := ⟨none, none, none, none, []⟩

/-- Outcomes that abort a parse: read failures, the duplicate-id panic of
NewDataIndexSection, the nil-pointer dereference NewDataSection performs when
no index section has been parsed, the wrong-header dispatch panics, the
missing-data-chunk error NewFile reports after a clean scan, and the
spec-modelled DataBeforeIndex error.  `outOfFuel` is an artifact of the fuel
budget and is unreachable for the budget NewFile uses. -/
inductive ParseErr where
  | ioError
  | panicDuplicateWemId (id : Nat)
  | nilIndexPanic
  | panicWrongHeader
  | missingDataChunk
  | dataBeforeIndex
  | outOfFuel
  deriving DecidableEq, Repr

/-- Modelled from the spec: the error taxonomy of section 7 lists a typed
`DataBeforeIndex` error for a DATA chunk met before any DIDX chunk.  No code
path in src/bnk/file.go produces such a value; the constructor above exists so
that the claim about it can be stated and compared with what the code does
(the `nilIndexPanic` runtime crash). -/
def dataBeforeIndexDoc : ParseErr := .dataBeforeIndex

/-- Outcomes that abort a replacement: the out-of-range index panic of the
slice access, the oversized-replacement panic, and the nil-pointer
dereferences on a File with no data or no index section. -/
inductive RepErr where
  | indexOutOfRange
  | unsupportedGrowth
  | nilDataPanic
  | nilIndexSectionPanic
  deriving DecidableEq, Repr

/-- Lookup in the association-list model of the Go descriptor map. -/
def mlookup : List (Nat × WemDescriptor) → Nat → Option WemDescriptor
  | [], _ => none
  | (k, v) :: tl, key => if k = key then some v else mlookup tl key

/-- Lookup with the Go zero value for a missing key. -/
def mgetD (m : List (Nat × WemDescriptor)) (key : Nat) : WemDescriptor :=
  (mlookup m key).getD ⟨0, 0, 0⟩

/-- Insert-or-overwrite in the association-list model of the Go map. -/
def minsert : List (Nat × WemDescriptor) → Nat → WemDescriptor → List (Nat × WemDescriptor)
  | [], key, v => [(key, v)]
  | (k, w) :: tl, key, v => if k = key then (k, v) :: tl else (k, w) :: minsert tl key v

/-- NewBankHeaderSection, reading from the bytes that follow the section
header: the fixed 8-byte BankDescriptor, then a view over
`hdr.Length - 8` (uint32-wrapping) remaining bytes, over which the cursor is
then advanced.  Returns the section, the bytes after the cursor, and the
cursor advance past the 8-byte section header. -/
def NewBankHeaderSection (hdr : SectionHeader) (rem : List Nat) :
    Except ParseErr (BankHeaderSection × List Nat × Nat) :=
  if hdr.Identifier ≠ bkhdHeaderId then .error .panicWrongHeader
  else if rem.length < 8 then .error .ioError
  else
    let desc : BankDescriptor := ⟨u32dec (rem.take 4), u32dec ((rem.drop 4).take 4)⟩
    let remaining := wsub32 hdr.Length 8
    .ok (⟨hdr, desc, (rem.drop 8).take remaining⟩, ((rem.drop 8).drop remaining, 8 + remaining))

/-- The record-reading loop of NewDataIndexSection: reads 12-byte descriptors,
panicking on a repeated wem id, appending ids in encounter order and
inserting each descriptor into the map. -/
def didxLoop : Nat → List Nat → DataIndexSection → Except ParseErr (DataIndexSection × List Nat)
  | 0, rem, sec => .ok (sec, rem)
  | n + 1, rem, sec =>
    if rem.length < 12 then .error .ioError
    else
      let d : WemDescriptor :=
        ⟨u32dec (rem.take 4), u32dec ((rem.drop 4).take 4), u32dec ((rem.drop 8).take 4)⟩
      if (mlookup sec.DescriptorMap d.WemId).isSome then .error (.panicDuplicateWemId d.WemId)
      else
        didxLoop n (rem.drop 12)
          ⟨sec.Header, sec.WemCount, sec.WemIds ++ [d.WemId], minsert sec.DescriptorMap d.WemId d⟩

/-- NewDataIndexSection: derives the entry count as `hdr.Length / 12` and
reads that many records.  Returns the section, the remaining bytes, and the
cursor advance past the section header (12 bytes per record read; the loop
does not seek to `hdr.Length` when it is not a multiple of 12). -/
def NewDataIndexSection (hdr : SectionHeader) (rem : List Nat) :
    Except ParseErr (DataIndexSection × List Nat × Nat) :=
  if hdr.Identifier ≠ didxHeaderId then .error .panicWrongHeader
  else
    let wemCount := hdr.Length / 12
    match didxLoop wemCount rem ⟨hdr, wemCount, [], []⟩ with
    | .error e => .error e
    | .ok (sec, rest) => .ok (sec, rest, 12 * wemCount)

/-- One wem of NewDataSection: the payload view over
`[desc.Offset, desc.Offset + desc.Length)` of the arena (the bytes from the
data offset to end of input), and the trailing view up to `nextOff`, whose
length may be negative for overlapping descriptors (the Go SectionReader then
yields nothing). -/
def mkWem (arena : List Nat) (desc : WemDescriptor) (nextOff : Nat) : Wem :=
  let remaining : Int := (nextOff : Int) - ((desc.Offset : Int) + (desc.Length : Int))
  { Reader := (arena.drop desc.Offset).take desc.Length
    Descriptor := desc
    RemainingReader := (arena.drop (desc.Offset + desc.Length)).take remaining.toNat
    RemainingLength := remaining }

/-- The wem-building loop of NewDataSection over the index ids in order: the
next offset of each wem is the next descriptor's offset, and for the last wem
the end of the data section `hdr.Length`. -/
def buildWems (m : List (Nat × WemDescriptor)) (arena : List Nat) (dataLen : Nat) :
    List Nat → List Wem
  | [] => []
  | [i] => [mkWem arena (mgetD m i) dataLen]
  | i :: j :: tl => mkWem arena (mgetD m i) (mgetD m j).Offset :: buildWems m arena dataLen (j :: tl)

/-- NewDataSection: dereferences the index section (a nil pointer when no
DIDX chunk has been parsed — a runtime panic in Go), records the absolute
data offset as a uint32, builds one wem per index id, and seeks the cursor
past `hdr.Length` payload bytes. -/
def NewDataSection (hdr : SectionHeader) (rem : List Nat) (idx : Option DataIndexSection)
    (pos : Nat) : Except ParseErr (DataSection × List Nat × Nat) :=
  if hdr.Identifier ≠ dataHeaderId then .error .panicWrongHeader
  else
    match idx with
    | none => .error .nilIndexPanic
    | some idx =>
      .ok (⟨hdr, pos % 4294967296, buildWems idx.DescriptorMap rem hdr.Length idx.WemIds⟩,
        (rem.drop hdr.Length, hdr.Length))

/-- NewUnknownSection: a view over exactly `hdr.Length` bytes, past which the
cursor is advanced.  Never fails. -/
def NewUnknownSection (hdr : SectionHeader) (rem : List Nat) :
    UnknownSection × List Nat × Nat :=
  (⟨hdr, rem.take hdr.Length⟩, (rem.drop hdr.Length, hdr.Length))

/-- One iteration of the chunk-scanning loop of NewFile: read an 8-byte
section header (a clean end of input ends the scan with `none`; a short read
aborts), dispatch on the identifier, and return the input past the section,
the advanced cursor position and the updated File. -/
def parseStep (rem : List Nat) (pos : Nat) (bnk : File) :
    Except ParseErr (Option (List Nat × Nat × File)) :=
  if rem.length = 0 then .ok none
  else if rem.length < 8 then .error .ioError
  else
    let hdr : SectionHeader := ⟨rem.take 4, u32dec ((rem.drop 4).take 4)⟩
    let body := rem.drop 8
    if hdr.Identifier = bkhdHeaderId then
      match NewBankHeaderSection hdr body with
      | .error e => .error e
      | .ok (sec, rest, adv) =>
        .ok (some (rest, pos + 8 + adv, { bnk with BankHeaderSection := some sec }))
    else if hdr.Identifier = didxHeaderId then
      match NewDataIndexSection hdr body with
      | .error e => .error e
      | .ok (sec, rest, adv) =>
        .ok (some (rest, pos + 8 + adv, { bnk with IndexSection := some sec }))
    else if hdr.Identifier = dataHeaderId then
      match NewDataSection hdr body bnk.IndexSection (pos + 8) with
      | .error e => .error e
      | .ok (sec, rest, adv) =>
        .ok (some (rest, pos + 8 + adv, { bnk with DataSection := some sec }))
    else
      match NewUnknownSection hdr body with
      | (sec, rest, adv) =>
        .ok (some (rest, pos + 8 + adv, { bnk with Others := bnk.Others ++ [sec] }))

/-- The chunk-scanning loop of NewFile: iterate `parseStep` until a clean end
of input or a failure.  `pos` tracks the absolute cursor position for the
DataStart field. -/
def parseLoop : Nat → List Nat → Nat → File → Except ParseErr File
  | 0, _, _, _ => .error .outOfFuel
  | fuel + 1, rem, pos, bnk =>
    match parseStep rem pos bnk with
    | .error e => .error e
    | .ok none => .ok bnk
    | .ok (some (rest, pos2, bnk2)) => parseLoop fuel rest pos2 bnk2

/-- NewFile: scan all chunks from position 0; after a clean scan, fail when no
DATA section was found ("There are no wems stored within this SoundBank."). -/
def NewFile (data : List Nat) : Except ParseErr File :=
  match parseLoop (data.length + 1) data 0 emptyFile with
  | .error e => .error e
  | .ok f => if f.DataSection.isNone then .error .missingDataChunk else .ok f

/-- Serialized bytes of a section header: identifier, then uint32 length. -/
def encodeSectionHeader (hdr : SectionHeader) : List Nat :=
  hdr.Identifier ++ u32enc hdr.Length

/-- Serialized bytes of a WemDescriptor: three little-endian uint32 fields. -/
def encodeDesc (d : WemDescriptor) : List Nat :=
  u32enc d.WemId ++ u32enc d.Offset ++ u32enc d.Length

/-- BankHeaderSection.WriteTo: header, descriptor, then the remaining view. -/
def BankHeaderSection.WriteTo (s : BankHeaderSection) : List Nat :=
  encodeSectionHeader s.Header ++ u32enc s.Descriptor.Version ++ u32enc s.Descriptor.BankId ++
    s.RemainingReader

/-- DataIndexSection.WriteTo: header, then for each id in the original
encounter order the descriptor the map currently holds for it. -/
def DataIndexSection.WriteTo (idx : DataIndexSection) : List Nat :=
  encodeSectionHeader idx.Header ++
    (idx.WemIds.map (fun i => encodeDesc (mgetD idx.DescriptorMap i))).flatten

/-- DataSection.WriteTo: header, then for each wem its payload view followed
by its trailing-padding view. -/
def DataSection.WriteTo (ds : DataSection) : List Nat :=
  encodeSectionHeader ds.Header ++ (ds.Wems.map (fun w => w.Reader ++ w.RemainingReader)).flatten

/-- UnknownSection.WriteTo: header, then the raw view verbatim. -/
def UnknownSection.WriteTo (u : UnknownSection) : List Nat :=
  encodeSectionHeader u.Header ++ u.Reader

/-- File.WriteTo: bank header, index, data, then unknown sections in encounter
order; dereferencing a missing section is a Go nil-pointer crash, modelled as
`none`. -/
def File.WriteTo (bnk : File) : Option (List Nat) :=
  match bnk.BankHeaderSection, bnk.IndexSection, bnk.DataSection with
  | some bh, some idx, some ds =>
    some (bh.WriteTo ++ idx.WriteTo ++ ds.WriteTo ++ (bnk.Others.map UnknownSection.WriteTo).flatten)
  | _, _, _ => none

/-- ReplaceWem: replace the wem at index `i` with `length` bytes read from
`r`.  The oversized-target check panics before any mutation; afterwards the
wem's payload view, padding view and descriptor are updated (its
RemainingLength field is left untouched by the Go code) and the index map
entry for its id is overwritten.  The returned File is the state the Go File
is left in, paired with the panic raised, if any. -/
def ReplaceWem (bnk : File) (i : Nat) (r : List Nat) (length : Int) : File × Option RepErr :=
  match bnk.DataSection with
  | none => (bnk, some .nilDataPanic)
  | some ds =>
    if hi : i < ds.Wems.length then
      let wem := ds.Wems.get ⟨i, hi⟩
      let oldLength : Int := (wem.Descriptor.Length : Int)
      if length > oldLength then (bnk, some .unsupportedGrowth)
      else
        let diff := oldLength - length
        let desc : WemDescriptor :=
          ⟨wem.Descriptor.WemId, wem.Descriptor.Offset, (length % 4294967296).toNat⟩
        let wem' : Wem :=
          { Reader := r.take length.toNat
            Descriptor := desc
            RemainingReader := List.replicate (diff + wem.RemainingLength).toNat 0
            RemainingLength := wem.RemainingLength }
        let ds' : DataSection := { ds with Wems := ds.Wems.set i wem' }
        let bnk' : File := { bnk with DataSection := some ds' }
        match bnk.IndexSection with
        | none => (bnk', some .nilIndexSectionPanic)
        | some idx =>
          let idx' : DataIndexSection :=
            { idx with DescriptorMap := minsert idx.DescriptorMap desc.WemId desc }
          ({ bnk' with IndexSection := some idx' }, none)
    else (bnk, some .indexOutOfRange)

/-- A ReplacementWem defines a wem to be replaced into an original SoundBank
File: the replacement bytes, the target index, and the byte count to read. -/
structure ReplacementWem where
  Wem : List Nat
  WemIndex : Nat
  Length : Int
  deriving DecidableEq, Repr

/-- ReplaceWems: apply each replacement in order; the per-entry body is the
same as ReplaceWem, so a panic stops the batch with earlier entries already
applied. -/
def ReplaceWems (bnk : File) : List ReplacementWem → File × Option RepErr
  | [] => (bnk, none)
  | r :: rs =>
    match ReplaceWem bnk r.WemIndex r.Wem r.Length with
    | (f, none) => ReplaceWems f rs
    | (f, some e) => (f, some e)

/-- Close: when a closer is present, close it, clear it, and return its
result; otherwise do nothing and return nil. -/
def File.Close (bnk : File) : File × Option Unit :=
  match bnk.closer with
  | some res => ({ bnk with closer := none }, res)
  | none => (bnk, none)

/-- Encoded chunk: tag, uint32 payload length, payload. -/
def encChunk (tag : List Nat) (payload : List Nat) : List Nat :=
  tag ++ u32enc payload.length ++ payload

/-- Encoded BKHD chunk with the given descriptor fields and trailing bytes. -/
def encBKHD (v b : Nat) (extra : List Nat) : List Nat :=
  encChunk bkhdHeaderId (u32enc v ++ u32enc b ++ extra)

/-- Encoded DIDX chunk holding the given records in order. -/
def encDIDX (rs : List WemDescriptor) : List Nat :=
  encChunk didxHeaderId (rs.map encodeDesc).flatten

/-- Encoded DATA chunk with the given payload arena. -/
def encDATA (payload : List Nat) : List Nat :=
  encChunk dataHeaderId payload

/-- First wem id of a record list that repeats an id already bound in the
accumulated map — the id whose descriptor read makes didxLoop panic. -/
def firstDupIn (m : List (Nat × WemDescriptor)) : List WemDescriptor → Option Nat
  | [] => none
  | d :: tl =>
    if (mlookup m d.WemId).isSome then some d.WemId
    else firstDupIn (minsert m d.WemId d) tl

/-- Well-formed record chain: the first record starts at the current offset
(0 at the top), each record ends at or before the next one starts, and the
last ends within the data payload; an empty index forces an empty payload. -/
def chainOKb : Nat → List WemDescriptor → Nat → Bool
  | cur, [], total => cur = total
  | cur, [d], total => cur = d.Offset && d.Offset + d.Length ≤ total
  | cur, d :: d2 :: tl, total =>
    cur = d.Offset && d.Offset + d.Length ≤ d2.Offset && chainOKb d2.Offset (d2 :: tl) total

/-- In-range fields for one index record. -/
def descFieldsOKb (d : WemDescriptor) : Bool :=
  d.WemId < 4294967296 && d.Offset < 4294967296 && d.Length < 4294967296

/-- Sum over wems of declared payload length plus computed trailing length —
the quantity the total-span claim is about. -/
def wemSpanSum (ws : List Wem) : Int :=
  (ws.map (fun w => (w.Descriptor.Length : Int) + w.RemainingLength)).sum

/-- Serialized byte count a wem contributes to DataSection.WriteTo. -/
def wemByteSpan (w : Wem) : Nat :=
  w.Reader.length + w.RemainingReader.length

/-- The wem stored at a given index of a File, when present. -/
def wemAt (bnk : File) (j : Nat) : Option Wem :=
  bnk.DataSection.bind fun ds => ds.Wems[j]?

/-- The descriptor offset of the wem at a given index of a File. -/
def offsetAt (bnk : File) (j : Nat) : Option Nat :=
  (wemAt bnk j).map fun w => w.Descriptor.Offset

/-- The descriptor map the index loop accumulates over a record list. -/
def bindAll (m : List (Nat × WemDescriptor)) (rs : List WemDescriptor) :
    List (Nat × WemDescriptor) :=
  rs.foldl (fun acc d => minsert acc d.WemId d) m

/-- Encoded trailing unknown chunks, one per (tag, payload) pair. -/
def encUnknowns (unks : List (List Nat × List Nat)) : List Nat :=
  (unks.map (fun u => encChunk u.1 u.2)).flatten

/-- A well-formed unknown chunk: a 4-byte tag distinct from the three known
tags, and an encodable payload length. -/
def unkOK (u : List Nat × List Nat) : Prop :=
  u.1.length = 4 ∧ u.1 ≠ bkhdHeaderId ∧ u.1 ≠ didxHeaderId ∧ u.1 ≠ dataHeaderId ∧
    u.2.length < 4294967296

instance (u : List Nat × List Nat) : Decidable (unkOK u) := by
  unfold unkOK
  infer_instance

/-- A well-formed container input: a BKHD chunk, a DIDX chunk, a DATA chunk,
then unknown chunks. -/
def wfBytes (v b : Nat) (extra : List Nat) (rs : List WemDescriptor) (payload : List Nat)
    (unks : List (List Nat × List Nat)) : List Nat :=
  encBKHD v b extra ++ (encDIDX rs ++ (encDATA payload ++ encUnknowns unks))

/-- The File that parsing a well-formed container input produces. -/
def wfFile (v b : Nat) (extra : List Nat) (rs : List WemDescriptor) (payload : List Nat)
    (unks : List (List Nat × List Nat)) : File :=
  ⟨none,
    some ⟨⟨bkhdHeaderId, 8 + extra.length⟩, ⟨v, b⟩, extra⟩,
    some ⟨⟨didxHeaderId, 12 * rs.length⟩, rs.length, rs.map WemDescriptor.WemId, bindAll [] rs⟩,
    some ⟨⟨dataHeaderId, payload.length⟩,
      (0 + 8 + (8 + extra.length) + 8 + 12 * rs.length + 8) % 4294967296,
      buildWems (bindAll [] rs) (payload ++ encUnknowns unks) payload.length
        (rs.map WemDescriptor.WemId)⟩,
    unks.map (fun u => ⟨⟨u.1, u.2.length⟩, u.2⟩)⟩

/-- The data section parse shape: some index map, arena and id list built the
wems through the data-section constructor. -/
def DSGood (ds : DataSection) : Prop :=
  ∃ m arena ids, ds.Wems = buildWems m arena ds.Header.Length ids

/-- The serialized data chunk of a parsed container, when parsing succeeded
and a data section is present. -/
def dataChunkOut (e : Except ParseErr File) : Option (List Nat) :=
  match e with
  | .ok f => f.DataSection.map DataSection.WriteTo
  | .error _ => none

/-- The parsed File of a successful parse, or the zero File. -/
def fileOrEmpty (e : Except ParseErr File) : File :=
  match e with
  | .ok f => f
  | .error _ => emptyFile

instance : DecidableEq (Except ParseErr File) := fun a b =>
  match a, b with
  | .ok x, .ok y =>
    if h : x = y then isTrue (by rw [h]) else isFalse (fun hc => by injection hc; exact h (by assumption))
  | .error x, .error y =>
    if h : x = y then isTrue (by rw [h]) else isFalse (fun hc => by injection hc; exact h (by assumption))
  | .ok _, .error _ => isFalse (fun hc => Except.noConfusion hc)
  | .error _, .ok _ => isFalse (fun hc => Except.noConfusion hc)

/-- A container input whose index covers none of the data payload: an empty
DIDX chunk and a DATA chunk with a 4-byte payload. -/
def cx1bytes : List Nat := encDIDX [] ++ encDATA [170, 170, 170, 170]

/-- The concrete-scenario container: one index record (id 1, offset 0,
length 4) and a data chunk of length 8 holding a 4-byte payload and 4 bytes
of padding. -/
def c5bytes : List Nat :=
  encDIDX [⟨1, 0, 4⟩] ++ encDATA [170, 170, 170, 170, 0, 0, 0, 0]

/-- The concrete-scenario container after parsing. -/
def c5parsed : File := fileOrEmpty (NewFile c5bytes)

/-- The concrete-scenario container after replacing wem 0 with two bytes. -/
def c5replaced : File × Option RepErr := ReplaceWem c5parsed 0 [187, 187] 2

/-- The parsed data section of the concrete-scenario container. -/
def c5ds : DataSection := (c5parsed.DataSection).getD ⟨⟨[], 0⟩, 0, []⟩

/-- The single wem of the concrete-scenario container. -/
def c5w : Wem := (c5ds.Wems.head?).getD ⟨[], ⟨0, 0, 0⟩, [], 0⟩

/-- A container whose single wem starts at offset 4 of an 8-byte data
payload. -/
def cx2bytes : List Nat := encDIDX [⟨1, 4, 2⟩] ++ encDATA [9, 9, 9, 9, 5, 5, 0, 0]

/-- The offset-4 container after parsing. -/
def cx2parsed : File := fileOrEmpty (NewFile cx2bytes)

/-- A hand-built container with two four-byte wems, used to exercise the
replacement operations directly. -/
def cx3file : File :=
  ⟨none, none,
    some ⟨⟨didxHeaderId, 24⟩, 2, [1, 2], [(1, ⟨1, 0, 4⟩), (2, ⟨2, 4, 4⟩)]⟩,
    some ⟨⟨dataHeaderId, 8⟩, 16,
      [⟨[9, 9, 9, 9], ⟨1, 0, 4⟩, [], 0⟩, ⟨[8, 8, 8, 8], ⟨2, 4, 4⟩, [], 0⟩]⟩,
    []⟩

/-- A batch whose first entry is a valid shrink of wem 0 and whose second
entry asks to grow wem 1. -/
def cx3batch : List ReplacementWem := [⟨[7], 0, 1⟩, ⟨[7, 7, 7, 7, 7], 1, 5⟩]

/-- A byte sequence containing only a bank-header chunk. -/
def w7bytes : List Nat := encBKHD 1 2 []

/-- A byte sequence whose first chunk is a DATA chunk. -/
def cx8bytes : List Nat := encDATA [1, 2, 3, 4]

/-- The result of the chunk scan over the bank-header-only input. -/
def w7file : File := fileOrEmpty (parseLoop (w7bytes.length + 1) w7bytes 0 emptyFile)

/-- The parsed index section of the concrete-scenario container. -/
def c5idx : DataIndexSection := (c5parsed.IndexSection).getD ⟨⟨[], 0⟩, 0, [], []⟩

end Bnk

namespace Bnk

theorem u32enc_length (n : Nat) : (u32enc n).length = 4 := by
  simp [u32enc]

theorem u32dec_u32enc (n : Nat) (h : n < 4294967296) : u32dec (u32enc n) = n := by
  simp only [u32dec, u32enc, List.getD_cons_zero, List.getD_cons_succ]
  omega

theorem wsub32_eq (a b : Nat) (hb : b ≤ a) (ha : a < 4294967296) : wsub32 a b = a - b := by
  unfold wsub32
  omega

theorem take_len_append (xs r : List Nat) (n : Nat) (h : xs.length = n) :
    (xs ++ r).take n = xs := by
  subst h
  exact List.take_left xs r

theorem drop_len_append (xs r : List Nat) (n : Nat) (h : xs.length = n) :
    (xs ++ r).drop n = r := by
  subst h
  exact List.drop_left xs r

theorem encodeDesc_length (d : WemDescriptor) : (encodeDesc d).length = 12 := by
  simp [encodeDesc, u32enc]

theorem encodeDesc_flatten_length (rs : List WemDescriptor) :
    ((rs.map encodeDesc).flatten).length = 12 * rs.length := by
  induction rs with
  | nil => simp
  | cons d tl ih => simp [ih, encodeDesc_length]; ring

theorem encChunk_length (tag payload : List Nat) (h : tag.length = 4) :
    (encChunk tag payload).length = 8 + payload.length := by
  simp [encChunk, h, u32enc_length]
  omega

end Bnk

namespace Bnk

theorem parseLoop_cont (fuel : Nat) (rem : List Nat) (pos : Nat) (bnk : File)
    (rest : List Nat) (pos2 : Nat) (bnk2 : File)
    (h : parseStep rem pos bnk = .ok (some (rest, pos2, bnk2))) :
    parseLoop (fuel + 1) rem pos bnk = parseLoop fuel rest pos2 bnk2 := by
  simp only [parseLoop, h]

theorem parseLoop_err (fuel : Nat) (rem : List Nat) (pos : Nat) (bnk : File)
    (e : ParseErr) (h : parseStep rem pos bnk = .error e) :
    parseLoop (fuel + 1) rem pos bnk = .error e := by
  simp only [parseLoop, h]

theorem parseLoop_nil (fuel pos : Nat) (bnk : File) :
    parseLoop (fuel + 1) [] pos bnk = .ok bnk := by
  simp only [parseLoop, parseStep, List.length_nil]
  rfl

theorem NewBankHeaderSection_enc (v b : Nat) (extra rest : List Nat)
    (hv : v < 4294967296) (hb : b < 4294967296) (he : 8 + extra.length < 4294967296) :
    NewBankHeaderSection ⟨bkhdHeaderId, 8 + extra.length⟩ (u32enc v ++ (u32enc b ++ (extra ++ rest)))
      = .ok (⟨⟨bkhdHeaderId, 8 + extra.length⟩, ⟨v, b⟩, extra⟩, (rest, 8 + extra.length)) := by
  have hbv : (u32enc v ++ (u32enc b ++ (extra ++ rest))).take 4 = u32enc v :=
    take_len_append _ _ 4 (u32enc_length _)
  have hbd : (u32enc v ++ (u32enc b ++ (extra ++ rest))).drop 4 = u32enc b ++ (extra ++ rest) :=
    drop_len_append _ _ 4 (u32enc_length _)
  have hdd : (u32enc v ++ (u32enc b ++ (extra ++ rest))).drop 8 = extra ++ rest := by
    rw [show (8 : Nat) = 4 + 4 from rfl, ← List.drop_drop, hbd,
      drop_len_append _ _ 4 (u32enc_length _)]
  have hblen : (u32enc v ++ (u32enc b ++ (extra ++ rest))).length
      = 8 + (extra.length + rest.length) := by
    simp [u32enc_length]
    omega
  have hrm : wsub32 (8 + extra.length) 8 = extra.length := by
    rw [wsub32_eq _ _ (by omega) he]
    omega
  simp only [NewBankHeaderSection, hblen, hbv, hbd, hdd, hrm,
    take_len_append _ _ 4 (u32enc_length _), u32dec_u32enc _ hv, u32dec_u32enc _ hb,
    take_len_append extra rest _ rfl, drop_len_append extra rest _ rfl]
  rw [if_neg (by simp [bkhdHeaderId]), if_neg (by omega)]

theorem parseStep_bkhd (pos : Nat) (bnk : File) (v b : Nat) (extra rest : List Nat)
    (hv : v < 4294967296) (hb : b < 4294967296) (he : 8 + extra.length < 4294967296) :
    parseStep (encBKHD v b extra ++ rest) pos bnk
      = .ok (some (rest, pos + 8 + (8 + extra.length),
          { bnk with BankHeaderSection := some ⟨⟨bkhdHeaderId, 8 + extra.length⟩, ⟨v, b⟩, extra⟩ })) := by
  have hplen : (u32enc v ++ (u32enc b ++ extra)).length = 8 + extra.length := by
    simp [u32enc_length]
    omega
  have hrem : encBKHD v b extra ++ rest
      = bkhdHeaderId ++ (u32enc (8 + extra.length) ++ (u32enc v ++ (u32enc b ++ (extra ++ rest)))) := by
    simp only [encBKHD, encChunk, List.append_assoc, hplen]
  rw [hrem]
  have hdrop4 : (bkhdHeaderId ++ (u32enc (8 + extra.length) ++ (u32enc v ++ (u32enc b ++ (extra ++ rest))))).drop 4
      = u32enc (8 + extra.length) ++ (u32enc v ++ (u32enc b ++ (extra ++ rest))) :=
    drop_len_append _ _ 4 (by decide)
  have htake4 : (bkhdHeaderId ++ (u32enc (8 + extra.length) ++ (u32enc v ++ (u32enc b ++ (extra ++ rest))))).take 4
      = bkhdHeaderId := take_len_append _ _ 4 (by decide)
  have hlen : (bkhdHeaderId ++ (u32enc (8 + extra.length) ++ (u32enc v ++ (u32enc b ++ (extra ++ rest))))).length
      = 16 + extra.length + rest.length := by
    simp [u32enc_length, bkhdHeaderId]
    omega
  have hlenfld : u32dec (((bkhdHeaderId ++ (u32enc (8 + extra.length) ++ (u32enc v ++ (u32enc b ++ (extra ++ rest))))).drop 4).take 4)
      = 8 + extra.length := by
    rw [hdrop4, take_len_append _ _ 4 (u32enc_length _), u32dec_u32enc _ he]
  have hbody : (bkhdHeaderId ++ (u32enc (8 + extra.length) ++ (u32enc v ++ (u32enc b ++ (extra ++ rest))))).drop 8
      = u32enc v ++ (u32enc b ++ (extra ++ rest)) := by
    rw [show (8 : Nat) = 4 + 4 from rfl, ← List.drop_drop, hdrop4,
      drop_len_append _ _ 4 (u32enc_length _)]
  simp only [parseStep, hlen, htake4, hlenfld, hbody,
    NewBankHeaderSection_enc v b extra rest hv hb he]
  rw [if_neg (by omega : ¬(16 + extra.length + rest.length = 0)),
    if_neg (by omega : ¬(16 + extra.length + rest.length < 8))]
  simp only [eq_self_iff_true, if_true]

end Bnk

namespace Bnk

theorem mlookup_minsert_self (m : List (Nat × WemDescriptor)) (k : Nat) (v : WemDescriptor) :
    mlookup (minsert m k v) k = some v := by
  induction m with
  | nil => simp [minsert, mlookup]
  | cons hd tl ih =>
    obtain ⟨k', w⟩ := hd
    by_cases h : k' = k
    · subst h
      simp [minsert, mlookup]
    · simp [minsert, mlookup, h, ih]

theorem mlookup_minsert_ne (m : List (Nat × WemDescriptor)) (k k' : Nat) (v : WemDescriptor)
    (h : k' ≠ k) : mlookup (minsert m k v) k' = mlookup m k' := by
  have hne : ¬ k = k' := fun hh => h hh.symm
  induction m with
  | nil => simp [minsert, mlookup, hne]
  | cons hd tl ih =>
    obtain ⟨k0, w⟩ := hd
    by_cases h0 : k0 = k
    · subst h0
      simp [minsert, mlookup, hne]
    · simp [minsert, h0, mlookup, ih]

theorem encodeDesc_append (d : WemDescriptor) (r : List Nat) :
    encodeDesc d ++ r = u32enc d.WemId ++ (u32enc d.Offset ++ (u32enc d.Length ++ r)) := by
  simp [encodeDesc, List.append_assoc]

theorem didxLoop_enc_ok (rs : List WemDescriptor) (rest : List Nat) (sec : DataIndexSection)
    (hf : ∀ d ∈ rs, descFieldsOKb d = true)
    (hdup : firstDupIn sec.DescriptorMap rs = none) :
    didxLoop rs.length ((rs.map encodeDesc).flatten ++ rest) sec
      = .ok (⟨sec.Header, sec.WemCount, sec.WemIds ++ rs.map WemDescriptor.WemId,
          bindAll sec.DescriptorMap rs⟩, rest) := by
  induction rs generalizing sec with
  | nil => simp [didxLoop, bindAll]
  | cons d tl ih =>
    have hd := hf d (by simp)
    have hid : d.WemId < 4294967296 := by
      simp [descFieldsOKb] at hd
      omega
    have hoff : d.Offset < 4294967296 := by
      simp [descFieldsOKb] at hd
      omega
    have hln : d.Length < 4294967296 := by
      simp [descFieldsOKb] at hd
      omega
    have hrem : ((d :: tl).map encodeDesc).flatten ++ rest
        = u32enc d.WemId ++ (u32enc d.Offset ++ (u32enc d.Length ++ ((tl.map encodeDesc).flatten ++ rest))) := by
      simp only [List.map_cons, List.flatten_cons, List.append_assoc, encodeDesc,
        List.append_assoc]
    have hlen12 : (u32enc d.WemId ++ (u32enc d.Offset ++ (u32enc d.Length ++ ((tl.map encodeDesc).flatten ++ rest)))).length
        = 12 + ((tl.map encodeDesc).flatten ++ rest).length := by
      simp [u32enc_length]
      omega
    have ht1 : (u32enc d.WemId ++ (u32enc d.Offset ++ (u32enc d.Length ++ ((tl.map encodeDesc).flatten ++ rest)))).take 4
        = u32enc d.WemId := take_len_append _ _ 4 (u32enc_length _)
    have hd1 : (u32enc d.WemId ++ (u32enc d.Offset ++ (u32enc d.Length ++ ((tl.map encodeDesc).flatten ++ rest)))).drop 4
        = u32enc d.Offset ++ (u32enc d.Length ++ ((tl.map encodeDesc).flatten ++ rest)) :=
      drop_len_append _ _ 4 (u32enc_length _)
    have ht2 : ((u32enc d.WemId ++ (u32enc d.Offset ++ (u32enc d.Length ++ ((tl.map encodeDesc).flatten ++ rest)))).drop 4).take 4
        = u32enc d.Offset := by
      rw [hd1, take_len_append _ _ 4 (u32enc_length _)]
    have hd2 : (u32enc d.WemId ++ (u32enc d.Offset ++ (u32enc d.Length ++ ((tl.map encodeDesc).flatten ++ rest)))).drop 8
        = u32enc d.Length ++ ((tl.map encodeDesc).flatten ++ rest) := by
      rw [show (8 : Nat) = 4 + 4 from rfl, ← List.drop_drop, hd1,
        drop_len_append _ _ 4 (u32enc_length _)]
    have ht3 : ((u32enc d.WemId ++ (u32enc d.Offset ++ (u32enc d.Length ++ ((tl.map encodeDesc).flatten ++ rest)))).drop 8).take 4
        = u32enc d.Length := by
      rw [hd2, take_len_append _ _ 4 (u32enc_length _)]
    have hd3 : (u32enc d.WemId ++ (u32enc d.Offset ++ (u32enc d.Length ++ ((tl.map encodeDesc).flatten ++ rest)))).drop 12
        = (tl.map encodeDesc).flatten ++ rest := by
      rw [show (12 : Nat) = 4 + 8 from rfl, Nat.add_comm 4 8, ← List.drop_drop, hd2,
        drop_len_append _ _ 4 (u32enc_length _)]
    simp only [firstDupIn] at hdup
    by_cases hcase : (mlookup sec.DescriptorMap d.WemId).isSome = true
    · rw [if_pos hcase] at hdup
      cases hdup
    · rw [if_neg hcase] at hdup
      have hnot : (mlookup sec.DescriptorMap d.WemId).isSome = false := by
        simpa using hcase
      simp only [List.length_cons, List.map_cons, List.flatten_cons]
      rw [show encodeDesc d ++ (tl.map encodeDesc).flatten ++ rest
          = u32enc d.WemId ++ (u32enc d.Offset ++ (u32enc d.Length ++ ((tl.map encodeDesc).flatten ++ rest))) by
        simp [encodeDesc, List.append_assoc]]
      simp only [didxLoop, hlen12, ht1, ht2, ht3, hd3,
        u32dec_u32enc _ hid, u32dec_u32enc _ hoff, u32dec_u32enc _ hln]
      rw [if_neg (by omega), if_neg (by simp [hnot])]
      rw [ih _ (fun d' hd' => hf d' (by simp [hd'])) hdup]
      simp [bindAll, List.append_assoc]

end Bnk

namespace Bnk

theorem didxLoop_enc_dup (rs : List WemDescriptor) (rest : List Nat) (sec : DataIndexSection)
    (dup : Nat) (hf : ∀ d ∈ rs, descFieldsOKb d = true)
    (hdup : firstDupIn sec.DescriptorMap rs = some dup) :
    didxLoop rs.length ((rs.map encodeDesc).flatten ++ rest) sec
      = .error (.panicDuplicateWemId dup) := by
  induction rs generalizing sec with
  | nil => cases hdup
  | cons d tl ih =>
    have hd := hf d (by simp)
    have hid : d.WemId < 4294967296 := by
      simp [descFieldsOKb] at hd
      omega
    have hoff : d.Offset < 4294967296 := by
      simp [descFieldsOKb] at hd
      omega
    have hln : d.Length < 4294967296 := by
      simp [descFieldsOKb] at hd
      omega
    have hrem : ((d :: tl).map encodeDesc).flatten ++ rest
        = u32enc d.WemId ++ (u32enc d.Offset ++ (u32enc d.Length ++ ((tl.map encodeDesc).flatten ++ rest))) := by
      simp [encodeDesc, List.append_assoc]
    have hlen12 : (u32enc d.WemId ++ (u32enc d.Offset ++ (u32enc d.Length ++ ((tl.map encodeDesc).flatten ++ rest)))).length
        = 12 + ((tl.map encodeDesc).flatten ++ rest).length := by
      simp [u32enc_length]
      omega
    have ht1 : (u32enc d.WemId ++ (u32enc d.Offset ++ (u32enc d.Length ++ ((tl.map encodeDesc).flatten ++ rest)))).take 4
        = u32enc d.WemId := take_len_append _ _ 4 (u32enc_length _)
    have hd1 : (u32enc d.WemId ++ (u32enc d.Offset ++ (u32enc d.Length ++ ((tl.map encodeDesc).flatten ++ rest)))).drop 4
        = u32enc d.Offset ++ (u32enc d.Length ++ ((tl.map encodeDesc).flatten ++ rest)) :=
      drop_len_append _ _ 4 (u32enc_length _)
    have ht2 : ((u32enc d.WemId ++ (u32enc d.Offset ++ (u32enc d.Length ++ ((tl.map encodeDesc).flatten ++ rest)))).drop 4).take 4
        = u32enc d.Offset := by
      rw [hd1, take_len_append _ _ 4 (u32enc_length _)]
    have hd2 : (u32enc d.WemId ++ (u32enc d.Offset ++ (u32enc d.Length ++ ((tl.map encodeDesc).flatten ++ rest)))).drop 8
        = u32enc d.Length ++ ((tl.map encodeDesc).flatten ++ rest) := by
      rw [show (8 : Nat) = 4 + 4 from rfl, ← List.drop_drop, hd1,
        drop_len_append _ _ 4 (u32enc_length _)]
    have ht3 : ((u32enc d.WemId ++ (u32enc d.Offset ++ (u32enc d.Length ++ ((tl.map encodeDesc).flatten ++ rest)))).drop 8).take 4
        = u32enc d.Length := by
      rw [hd2, take_len_append _ _ 4 (u32enc_length _)]
    have hd3 : (u32enc d.WemId ++ (u32enc d.Offset ++ (u32enc d.Length ++ ((tl.map encodeDesc).flatten ++ rest)))).drop 12
        = (tl.map encodeDesc).flatten ++ rest := by
      rw [show (12 : Nat) = 4 + 8 from rfl, Nat.add_comm 4 8, ← List.drop_drop, hd2,
        drop_len_append _ _ 4 (u32enc_length _)]
    simp only [firstDupIn] at hdup
    by_cases hcase : (mlookup sec.DescriptorMap d.WemId).isSome = true
    · rw [if_pos hcase] at hdup
      simp only [List.length_cons, List.map_cons, List.flatten_cons]
      rw [show encodeDesc d ++ (tl.map encodeDesc).flatten ++ rest
          = u32enc d.WemId ++ (u32enc d.Offset ++ (u32enc d.Length ++ ((tl.map encodeDesc).flatten ++ rest))) by
        simp [encodeDesc, List.append_assoc]]
      simp only [didxLoop, hlen12, ht1, ht2, ht3,
        u32dec_u32enc _ hid, u32dec_u32enc _ hoff, u32dec_u32enc _ hln]
      rw [if_neg (by omega), if_pos hcase]
      cases hdup
      rfl
    · rw [if_neg hcase] at hdup
      have hnot : (mlookup sec.DescriptorMap d.WemId).isSome = false := by
        simpa using hcase
      simp only [List.length_cons, List.map_cons, List.flatten_cons]
      rw [show encodeDesc d ++ (tl.map encodeDesc).flatten ++ rest
          = u32enc d.WemId ++ (u32enc d.Offset ++ (u32enc d.Length ++ ((tl.map encodeDesc).flatten ++ rest))) by
        simp [encodeDesc, List.append_assoc]]
      simp only [didxLoop, hlen12, ht1, ht2, ht3, hd3,
        u32dec_u32enc _ hid, u32dec_u32enc _ hoff, u32dec_u32enc _ hln]
      rw [if_neg (by omega), if_neg (by simp [hnot])]
      exact ih _ (fun d' hd' => hf d' (by simp [hd'])) hdup

end Bnk

namespace Bnk

theorem NewDataIndexSection_enc (rs : List WemDescriptor) (rest : List Nat)
    (hf : ∀ d ∈ rs, descFieldsOKb d = true) (hdup : firstDupIn [] rs = none)
    (hlen : 12 * rs.length < 4294967296) :
    NewDataIndexSection ⟨didxHeaderId, 12 * rs.length⟩ ((rs.map encodeDesc).flatten ++ rest)
      = .ok (⟨⟨didxHeaderId, 12 * rs.length⟩, rs.length, rs.map WemDescriptor.WemId, bindAll [] rs⟩,
          rest, 12 * rs.length) := by
  have hcount : 12 * rs.length / 12 = rs.length := by omega
  simp only [NewDataIndexSection, hcount]
  rw [if_neg (by simp [didxHeaderId])]
  rw [didxLoop_enc_ok rs rest ⟨⟨didxHeaderId, 12 * rs.length⟩, rs.length, [], []⟩ hf hdup]
  simp

theorem NewDataIndexSection_dup (rs : List WemDescriptor) (rest : List Nat) (dup : Nat)
    (hf : ∀ d ∈ rs, descFieldsOKb d = true) (hdup : firstDupIn [] rs = some dup)
    (hlen : 12 * rs.length < 4294967296) :
    NewDataIndexSection ⟨didxHeaderId, 12 * rs.length⟩ ((rs.map encodeDesc).flatten ++ rest)
      = .error (.panicDuplicateWemId dup) := by
  have hcount : 12 * rs.length / 12 = rs.length := by omega
  simp only [NewDataIndexSection, hcount]
  rw [if_neg (by simp [didxHeaderId])]
  rw [didxLoop_enc_dup rs rest ⟨⟨didxHeaderId, 12 * rs.length⟩, rs.length, [], []⟩ dup hf hdup]

theorem encDIDX_decomp (rs : List WemDescriptor) (rest : List Nat) :
    encDIDX rs ++ rest
      = didxHeaderId ++ (u32enc (12 * rs.length) ++ ((rs.map encodeDesc).flatten ++ rest)) := by
  simp only [encDIDX, encChunk, encodeDesc_flatten_length, List.append_assoc]

theorem parseStep_didx (pos : Nat) (bnk : File) (rs : List WemDescriptor) (rest : List Nat)
    (hf : ∀ d ∈ rs, descFieldsOKb d = true) (hdup : firstDupIn [] rs = none)
    (hlen : 12 * rs.length < 4294967296) :
    parseStep (encDIDX rs ++ rest) pos bnk
      = .ok (some (rest, pos + 8 + 12 * rs.length,
          { bnk with IndexSection := some ⟨⟨didxHeaderId, 12 * rs.length⟩, rs.length, rs.map WemDescriptor.WemId, bindAll [] rs⟩ })) := by
  rw [encDIDX_decomp]
  have htake4 : (didxHeaderId ++ (u32enc (12 * rs.length) ++ ((rs.map encodeDesc).flatten ++ rest))).take 4
      = didxHeaderId := take_len_append _ _ 4 (by decide)
  have hdrop4 : (didxHeaderId ++ (u32enc (12 * rs.length) ++ ((rs.map encodeDesc).flatten ++ rest))).drop 4
      = u32enc (12 * rs.length) ++ ((rs.map encodeDesc).flatten ++ rest) :=
    drop_len_append _ _ 4 (by decide)
  have hlenall : (didxHeaderId ++ (u32enc (12 * rs.length) ++ ((rs.map encodeDesc).flatten ++ rest))).length
      = 8 + 12 * rs.length + rest.length := by
    simp only [List.length_append, u32enc_length, encodeDesc_flatten_length]
    have h4 : didxHeaderId.length = 4 := by decide
    omega
  have hlenfld : u32dec (((didxHeaderId ++ (u32enc (12 * rs.length) ++ ((rs.map encodeDesc).flatten ++ rest))).drop 4).take 4)
      = 12 * rs.length := by
    rw [hdrop4, take_len_append _ _ 4 (u32enc_length _), u32dec_u32enc _ hlen]
  have hbody : (didxHeaderId ++ (u32enc (12 * rs.length) ++ ((rs.map encodeDesc).flatten ++ rest))).drop 8
      = (rs.map encodeDesc).flatten ++ rest := by
    rw [show (8 : Nat) = 4 + 4 from rfl, ← List.drop_drop, hdrop4,
      drop_len_append _ _ 4 (u32enc_length _)]
  simp only [parseStep, hlenall, htake4, hlenfld, hbody,
    NewDataIndexSection_enc rs rest hf hdup hlen]
  rw [if_neg (by omega : ¬(8 + 12 * rs.length + rest.length = 0)),
    if_neg (by omega : ¬(8 + 12 * rs.length + rest.length < 8)),
    if_neg (by decide : ¬(didxHeaderId = bkhdHeaderId))]
  simp only [eq_self_iff_true, if_true]

theorem parseStep_didx_dup (pos : Nat) (bnk : File) (rs : List WemDescriptor) (rest : List Nat)
    (dup : Nat) (hf : ∀ d ∈ rs, descFieldsOKb d = true) (hdup : firstDupIn [] rs = some dup)
    (hlen : 12 * rs.length < 4294967296) :
    parseStep (encDIDX rs ++ rest) pos bnk = .error (.panicDuplicateWemId dup) := by
  rw [encDIDX_decomp]
  have htake4 : (didxHeaderId ++ (u32enc (12 * rs.length) ++ ((rs.map encodeDesc).flatten ++ rest))).take 4
      = didxHeaderId := take_len_append _ _ 4 (by decide)
  have hdrop4 : (didxHeaderId ++ (u32enc (12 * rs.length) ++ ((rs.map encodeDesc).flatten ++ rest))).drop 4
      = u32enc (12 * rs.length) ++ ((rs.map encodeDesc).flatten ++ rest) :=
    drop_len_append _ _ 4 (by decide)
  have hlenall : (didxHeaderId ++ (u32enc (12 * rs.length) ++ ((rs.map encodeDesc).flatten ++ rest))).length
      = 8 + 12 * rs.length + rest.length := by
    simp only [List.length_append, u32enc_length, encodeDesc_flatten_length]
    have h4 : didxHeaderId.length = 4 := by decide
    omega
  have hlenfld : u32dec (((didxHeaderId ++ (u32enc (12 * rs.length) ++ ((rs.map encodeDesc).flatten ++ rest))).drop 4).take 4)
      = 12 * rs.length := by
    rw [hdrop4, take_len_append _ _ 4 (u32enc_length _), u32dec_u32enc _ hlen]
  have hbody : (didxHeaderId ++ (u32enc (12 * rs.length) ++ ((rs.map encodeDesc).flatten ++ rest))).drop 8
      = (rs.map encodeDesc).flatten ++ rest := by
    rw [show (8 : Nat) = 4 + 4 from rfl, ← List.drop_drop, hdrop4,
      drop_len_append _ _ 4 (u32enc_length _)]
  simp only [parseStep, hlenall, htake4, hlenfld, hbody,
    NewDataIndexSection_dup rs rest dup hf hdup hlen]
  rw [if_neg (by omega : ¬(8 + 12 * rs.length + rest.length = 0)),
    if_neg (by omega : ¬(8 + 12 * rs.length + rest.length < 8)),
    if_neg (by decide : ¬(didxHeaderId = bkhdHeaderId))]
  simp only [eq_self_iff_true, if_true]

end Bnk

namespace Bnk

theorem encDATA_decomp (payload rest : List Nat) :
    encDATA payload ++ rest
      = dataHeaderId ++ (u32enc payload.length ++ (payload ++ rest)) := by
  simp only [encDATA, encChunk, List.append_assoc]

theorem parseStep_data (pos : Nat) (bnk : File) (payload rest : List Nat) (idx : DataIndexSection)
    (hidx : bnk.IndexSection = some idx) (hpl : payload.length < 4294967296) :
    parseStep (encDATA payload ++ rest) pos bnk
      = .ok (some (rest, pos + 8 + payload.length,
          { bnk with DataSection := some ⟨⟨dataHeaderId, payload.length⟩, (pos + 8) % 4294967296, buildWems idx.DescriptorMap (payload ++ rest) payload.length idx.WemIds⟩ })) := by
  rw [encDATA_decomp]
  have htake4 : (dataHeaderId ++ (u32enc payload.length ++ (payload ++ rest))).take 4
      = dataHeaderId := take_len_append _ _ 4 (by decide)
  have hdrop4 : (dataHeaderId ++ (u32enc payload.length ++ (payload ++ rest))).drop 4
      = u32enc payload.length ++ (payload ++ rest) := drop_len_append _ _ 4 (by decide)
  have hlenall : (dataHeaderId ++ (u32enc payload.length ++ (payload ++ rest))).length
      = 8 + payload.length + rest.length := by
    simp only [List.length_append, u32enc_length]
    have h4 : dataHeaderId.length = 4 := by decide
    omega
  have hlenfld : u32dec (((dataHeaderId ++ (u32enc payload.length ++ (payload ++ rest))).drop 4).take 4)
      = payload.length := by
    rw [hdrop4, take_len_append _ _ 4 (u32enc_length _), u32dec_u32enc _ hpl]
  have hbody : (dataHeaderId ++ (u32enc payload.length ++ (payload ++ rest))).drop 8
      = payload ++ rest := by
    rw [show (8 : Nat) = 4 + 4 from rfl, ← List.drop_drop, hdrop4,
      drop_len_append _ _ 4 (u32enc_length _)]
  have hrest : (payload ++ rest).drop payload.length = rest := drop_len_append _ _ _ rfl
  simp only [parseStep, hlenall, htake4, hlenfld, hbody, NewDataSection, hidx, hrest]
  rw [if_neg (by omega : ¬(8 + payload.length + rest.length = 0)),
    if_neg (by omega : ¬(8 + payload.length + rest.length < 8)),
    if_neg (by decide : ¬(dataHeaderId = bkhdHeaderId)),
    if_neg (by decide : ¬(dataHeaderId = didxHeaderId))]
  simp only [eq_self_iff_true, if_true]
  rw [if_neg (by simp [dataHeaderId])]

theorem parseStep_data_noidx (pos : Nat) (bnk : File) (payload rest : List Nat)
    (hidx : bnk.IndexSection = none) :
    parseStep (encDATA payload ++ rest) pos bnk = .error .nilIndexPanic := by
  rw [encDATA_decomp]
  have htake4 : (dataHeaderId ++ (u32enc payload.length ++ (payload ++ rest))).take 4
      = dataHeaderId := take_len_append _ _ 4 (by decide)
  have hlenall : (dataHeaderId ++ (u32enc payload.length ++ (payload ++ rest))).length
      = 8 + payload.length + rest.length := by
    simp only [List.length_append, u32enc_length]
    have h4 : dataHeaderId.length = 4 := by decide
    omega
  simp only [parseStep, hlenall, htake4, NewDataSection, hidx]
  rw [if_neg (by omega : ¬(8 + payload.length + rest.length = 0)),
    if_neg (by omega : ¬(8 + payload.length + rest.length < 8)),
    if_neg (by decide : ¬(dataHeaderId = bkhdHeaderId)),
    if_neg (by decide : ¬(dataHeaderId = didxHeaderId))]
  simp only [eq_self_iff_true, if_true]
  rw [if_neg (by simp [dataHeaderId])]

theorem parseStep_unknown (pos : Nat) (bnk : File) (tag payload rest : List Nat)
    (htag : tag.length = 4) (h1 : tag ≠ bkhdHeaderId) (h2 : tag ≠ didxHeaderId)
    (h3 : tag ≠ dataHeaderId) (hpl : payload.length < 4294967296) :
    parseStep (encChunk tag payload ++ rest) pos bnk
      = .ok (some (rest, pos + 8 + payload.length,
          { bnk with Others := bnk.Others ++ [⟨⟨tag, payload.length⟩, payload⟩] })) := by
  have hdec : encChunk tag payload ++ rest = tag ++ (u32enc payload.length ++ (payload ++ rest)) := by
    simp only [encChunk, List.append_assoc]
  rw [hdec]
  have htake4 : (tag ++ (u32enc payload.length ++ (payload ++ rest))).take 4 = tag :=
    take_len_append _ _ 4 htag
  have hdrop4 : (tag ++ (u32enc payload.length ++ (payload ++ rest))).drop 4
      = u32enc payload.length ++ (payload ++ rest) := drop_len_append _ _ 4 htag
  have hlenall : (tag ++ (u32enc payload.length ++ (payload ++ rest))).length
      = 8 + payload.length + rest.length := by
    simp only [List.length_append, u32enc_length, htag]
    omega
  have hlenfld : u32dec (((tag ++ (u32enc payload.length ++ (payload ++ rest))).drop 4).take 4)
      = payload.length := by
    rw [hdrop4, take_len_append _ _ 4 (u32enc_length _), u32dec_u32enc _ hpl]
  have hbody : (tag ++ (u32enc payload.length ++ (payload ++ rest))).drop 8
      = payload ++ rest := by
    rw [show (8 : Nat) = 4 + 4 from rfl, ← List.drop_drop, hdrop4,
      drop_len_append _ _ 4 (u32enc_length _)]
  simp only [parseStep, hlenall, htake4, hlenfld, hbody, NewUnknownSection,
    take_len_append payload rest _ rfl, drop_len_append payload rest _ rfl]
  rw [if_neg (by omega : ¬(8 + payload.length + rest.length = 0)),
    if_neg (by omega : ¬(8 + payload.length + rest.length < 8)),
    if_neg h1, if_neg h2, if_neg h3]

end Bnk

namespace Bnk

theorem encUnknowns_cons (u : List Nat × List Nat) (tl : List (List Nat × List Nat)) :
    encUnknowns (u :: tl) = encChunk u.1 u.2 ++ encUnknowns tl := by
  simp [encUnknowns]

theorem encUnknowns_length_ge (unks : List (List Nat × List Nat))
    (hok : ∀ u ∈ unks, unkOK u) : 8 * unks.length ≤ (encUnknowns unks).length := by
  induction unks with
  | nil => simp [encUnknowns]
  | cons u tl ih =>
    have hu := hok u (by simp)
    rw [encUnknowns_cons]
    have h1 : (encChunk u.1 u.2).length = 8 + u.2.length := encChunk_length _ _ hu.1
    have h2 := ih (fun u' hu' => hok u' (by simp [hu']))
    simp only [List.length_append, List.length_cons, h1]
    omega

theorem parseLoop_unknowns (unks : List (List Nat × List Nat)) (fuel pos : Nat) (bnk : File)
    (hok : ∀ u ∈ unks, unkOK u) (hfuel : unks.length + 1 ≤ fuel) :
    parseLoop fuel (encUnknowns unks) pos bnk
      = .ok { bnk with Others := bnk.Others ++ unks.map (fun u => ⟨⟨u.1, u.2.length⟩, u.2⟩) } := by
  induction unks generalizing fuel pos bnk with
  | nil =>
    obtain ⟨f', rfl⟩ : ∃ f', fuel = f' + 1 := ⟨fuel - 1, by omega⟩
    have : encUnknowns [] = ([] : List Nat) := by simp [encUnknowns]
    rw [this, parseLoop_nil]
    simp
  | cons u tl ih =>
    obtain ⟨f', rfl⟩ : ∃ f', fuel = f' + 1 := ⟨fuel - 1, by omega⟩
    have hu := hok u (by simp)
    have hstep := parseStep_unknown pos bnk u.1 u.2 (encUnknowns tl) hu.1 hu.2.1 hu.2.2.1
      hu.2.2.2.1 hu.2.2.2.2
    rw [encUnknowns_cons, parseLoop_cont _ _ _ _ _ _ _ hstep]
    rw [ih _ _ _ (fun u' hu' => hok u' (by simp [hu'])) (by simp at hfuel ⊢; omega)]
    simp [List.append_assoc]

end Bnk

namespace Bnk

theorem wfBytes_length (v b : Nat) (extra : List Nat) (rs : List WemDescriptor)
    (payload : List Nat) (unks : List (List Nat × List Nat)) :
    (wfBytes v b extra rs payload unks).length
      = 32 + extra.length + 12 * rs.length + payload.length + (encUnknowns unks).length := by
  have h1 : (encBKHD v b extra).length = 16 + extra.length := by
    have := encChunk_length bkhdHeaderId (u32enc v ++ u32enc b ++ extra) (by decide)
    simp only [encBKHD, this]
    simp [u32enc_length]
    omega
  have h2 : (encDIDX rs).length = 8 + 12 * rs.length := by
    have := encChunk_length didxHeaderId ((rs.map encodeDesc).flatten) (by decide)
    simp only [encDIDX, this, encodeDesc_flatten_length]
  have h3 : (encDATA payload).length = 8 + payload.length :=
    encChunk_length dataHeaderId payload (by decide)
  simp only [wfBytes, List.length_append, h1, h2, h3]
  omega

theorem NewFile_eval (data : List Nat) (f : File)
    (h : parseLoop (data.length + 1) data 0 emptyFile = .ok f)
    (hds : f.DataSection.isNone = false) : NewFile data = .ok f := by
  unfold NewFile
  rw [h]
  simp [hds]

theorem NewFile_err (data : List Nat) (e : ParseErr)
    (h : parseLoop (data.length + 1) data 0 emptyFile = .error e) :
    NewFile data = .error e := by
  unfold NewFile
  rw [h]

theorem NewFile_missing (data : List Nat) (f : File)
    (h : parseLoop (data.length + 1) data 0 emptyFile = .ok f)
    (hds : f.DataSection = none) : NewFile data = .error .missingDataChunk := by
  unfold NewFile
  rw [h]
  simp [hds]

theorem parseLoop_wf (v b : Nat) (extra : List Nat) (rs : List WemDescriptor)
    (payload : List Nat) (unks : List (List Nat × List Nat))
    (hv : v < 4294967296) (hb : b < 4294967296) (he : 8 + extra.length < 4294967296)
    (hf : ∀ d ∈ rs, descFieldsOKb d = true) (hdup : firstDupIn [] rs = none)
    (hrslen : 12 * rs.length < 4294967296) (hpl : payload.length < 4294967296)
    (hok : ∀ u ∈ unks, unkOK u) (k : Nat) (hkfuel : unks.length + 1 ≤ k) :
    parseLoop ((k + 1) + 1 + 1) (wfBytes v b extra rs payload unks) 0 emptyFile
      = .ok (wfFile v b extra rs payload unks) := by
  have hstep1 := parseStep_bkhd 0 emptyFile v b extra
    (encDIDX rs ++ (encDATA payload ++ encUnknowns unks)) hv hb he
  rw [show wfBytes v b extra rs payload unks
      = encBKHD v b extra ++ (encDIDX rs ++ (encDATA payload ++ encUnknowns unks)) from rfl]
  rw [parseLoop_cont _ _ _ _ _ _ _ hstep1]
  rw [parseLoop_cont _ _ _ _ _ _ _ (parseStep_didx _ _ rs _ hf hdup hrslen)]
  rw [parseLoop_cont _ _ _ _ _ _ _ (parseStep_data _ _ payload (encUnknowns unks)
    ⟨⟨didxHeaderId, 12 * rs.length⟩, rs.length, rs.map WemDescriptor.WemId, bindAll [] rs⟩
    rfl hpl)]
  rw [parseLoop_unknowns unks k _ _ hok hkfuel]
  rfl

theorem NewFile_wf (v b : Nat) (extra : List Nat) (rs : List WemDescriptor)
    (payload : List Nat) (unks : List (List Nat × List Nat))
    (hv : v < 4294967296) (hb : b < 4294967296) (he : 8 + extra.length < 4294967296)
    (hf : ∀ d ∈ rs, descFieldsOKb d = true) (hdup : firstDupIn [] rs = none)
    (hrslen : 12 * rs.length < 4294967296) (hpl : payload.length < 4294967296)
    (hok : ∀ u ∈ unks, unkOK u) :
    NewFile (wfBytes v b extra rs payload unks) = .ok (wfFile v b extra rs payload unks) := by
  obtain ⟨k, hk, hkfuel⟩ :
      ∃ k, (wfBytes v b extra rs payload unks).length + 1 = (k + 1) + 1 + 1
        ∧ unks.length + 1 ≤ k := by
    have hge := encUnknowns_length_ge unks hok
    have hlen := wfBytes_length v b extra rs payload unks
    refine ⟨(wfBytes v b extra rs payload unks).length - 2, by omega, by omega⟩
  refine NewFile_eval _ _ ?_ rfl
  rw [hk]
  exact parseLoop_wf v b extra rs payload unks hv hb he hf hdup hrslen hpl hok k hkfuel

end Bnk

namespace Bnk

theorem firstDupIn_cons_none (m : List (Nat × WemDescriptor)) (d : WemDescriptor)
    (tl : List WemDescriptor) (h : firstDupIn m (d :: tl) = none) :
    mlookup m d.WemId = none ∧ firstDupIn (minsert m d.WemId d) tl = none := by
  simp only [firstDupIn] at h
  cases hm : mlookup m d.WemId with
  | some w =>
    rw [if_pos (by simp [hm])] at h
    cases h
  | none =>
    rw [if_neg (by simp [hm])] at h
    exact ⟨rfl, h⟩

theorem bindAll_preserve (rs : List WemDescriptor) (m : List (Nat × WemDescriptor)) (k : Nat)
    (hdup : firstDupIn m rs = none) (hk : (mlookup m k).isSome = true) :
    mlookup (bindAll m rs) k = mlookup m k := by
  induction rs generalizing m with
  | nil => rfl
  | cons d tl ih =>
    obtain ⟨h1, h2⟩ := firstDupIn_cons_none m d tl hdup
    have hne : k ≠ d.WemId := by
      intro hkk
      rw [hkk, h1] at hk
      cases hk
    have hk2 : (mlookup (minsert m d.WemId d) k).isSome = true := by
      rw [mlookup_minsert_ne _ _ _ _ hne]
      exact hk
    calc mlookup (bindAll (minsert m d.WemId d) tl) k
        = mlookup (minsert m d.WemId d) k := ih (minsert m d.WemId d) h2 hk2
      _ = mlookup m k := mlookup_minsert_ne _ _ _ _ hne

theorem bindAll_lookup (rs : List WemDescriptor) (m : List (Nat × WemDescriptor))
    (d : WemDescriptor) (hdup : firstDupIn m rs = none) (hd : d ∈ rs) :
    mlookup (bindAll m rs) d.WemId = some d := by
  induction rs generalizing m with
  | nil => cases hd
  | cons u tl ih =>
    obtain ⟨h1, h2⟩ := firstDupIn_cons_none m u tl hdup
    rcases List.mem_cons.mp hd with hdu | hdtl
    · subst hdu
      calc mlookup (bindAll (minsert m d.WemId d) tl) d.WemId
          = mlookup (minsert m d.WemId d) d.WemId :=
            bindAll_preserve tl _ _ h2 (by rw [mlookup_minsert_self]; rfl)
        _ = some d := mlookup_minsert_self _ _ _
    · exact ih (minsert m u.WemId u) h2 hdtl

theorem firstDupIn_none_not_mem (rs : List WemDescriptor) (m : List (Nat × WemDescriptor))
    (hdup : firstDupIn m rs = none) (d : WemDescriptor) (hd : d ∈ rs) :
    mlookup m d.WemId = none := by
  induction rs generalizing m with
  | nil => cases hd
  | cons u tl ih =>
    obtain ⟨h1, h2⟩ := firstDupIn_cons_none m u tl hdup
    rcases List.mem_cons.mp hd with hdu | hdtl
    · subst hdu
      exact h1
    · have := ih (minsert m u.WemId u) h2 hdtl
      by_cases hne : d.WemId = u.WemId
      · rw [hne, mlookup_minsert_self] at this
        cases this
      · rw [mlookup_minsert_ne _ _ _ _ hne] at this
        exact this

theorem firstDupIn_none_nodup (rs : List WemDescriptor) (m : List (Nat × WemDescriptor))
    (hdup : firstDupIn m rs = none) : (rs.map WemDescriptor.WemId).Nodup := by
  induction rs generalizing m with
  | nil => simp
  | cons u tl ih =>
    obtain ⟨h1, h2⟩ := firstDupIn_cons_none m u tl hdup
    simp only [List.map_cons, List.nodup_cons]
    constructor
    · intro hmem
      obtain ⟨d, hdtl, hdid⟩ := List.mem_map.mp hmem
      have := firstDupIn_none_not_mem tl (minsert m u.WemId u) h2 d hdtl
      rw [hdid, mlookup_minsert_self] at this
      cases this
    · exact ih (minsert m u.WemId u) h2

end Bnk

namespace Bnk

theorem wf_bkhd_writeTo (v b : Nat) (extra : List Nat) :
    BankHeaderSection.WriteTo ⟨⟨bkhdHeaderId, 8 + extra.length⟩, ⟨v, b⟩, extra⟩
      = encBKHD v b extra := by
  have hplen : (u32enc v ++ (u32enc b ++ extra)).length = 8 + extra.length := by
    simp [u32enc_length]
    omega
  simp only [BankHeaderSection.WriteTo, encBKHD, encChunk, encodeSectionHeader, hplen,
    List.append_assoc]

theorem wf_didx_writeTo (rs : List WemDescriptor) (hdup : firstDupIn [] rs = none) :
    DataIndexSection.WriteTo
        ⟨⟨didxHeaderId, 12 * rs.length⟩, rs.length, rs.map WemDescriptor.WemId, bindAll [] rs⟩
      = encDIDX rs := by
  have hmap : (rs.map WemDescriptor.WemId).map (fun i => encodeDesc (mgetD (bindAll [] rs) i))
      = rs.map encodeDesc := by
    rw [List.map_map]
    refine List.map_congr_left ?_
    intro d hd
    have := bindAll_lookup rs [] d hdup hd
    simp [Function.comp, mgetD, this]
  simp only [DataIndexSection.WriteTo, hmap, encDIDX, encChunk, encodeSectionHeader,
    encodeDesc_flatten_length, List.append_assoc]

theorem slice_glue (p : List Nat) (a b c : Nat) (hab : a ≤ b) (hbc : b ≤ c) :
    (p.drop a).take (b - a) ++ (p.drop b).take (c - b) = (p.drop a).take (c - a) := by
  have hsplit : c - a = (b - a) + (c - b) := by omega
  rw [hsplit, List.take_add]
  congr 2
  rw [List.drop_drop]
  congr 1
  omega

theorem slice_clip (p r : List Nat) (a n : Nat) (h : a + n ≤ p.length) :
    ((p ++ r).drop a).take n = (p.drop a).take n := by
  rw [List.drop_append_of_le_length (by omega)]
  rw [List.take_append_of_le_length (by simp [List.length_drop]; omega)]

end Bnk

namespace Bnk

theorem chainOKb_le (rs : List WemDescriptor) (cur total : Nat)
    (h : chainOKb cur rs total = true) : cur ≤ total := by
  induction rs generalizing cur with
  | nil =>
    simp only [chainOKb, decide_eq_true_eq] at h
    omega
  | cons d tl ih =>
    cases tl with
    | nil =>
      simp only [chainOKb, Bool.and_eq_true, decide_eq_true_eq] at h
      omega
    | cons d2 tl2 =>
      simp only [chainOKb, Bool.and_eq_true, decide_eq_true_eq] at h
      have := ih d2.Offset h.2
      omega

theorem mkWem_bytes (arena : List Nat) (desc : WemDescriptor) (nextOff : Nat)
    (h : desc.Offset + desc.Length ≤ nextOff) :
    (mkWem arena desc nextOff).Reader ++ (mkWem arena desc nextOff).RemainingReader
      = (arena.drop desc.Offset).take desc.Length
        ++ (arena.drop (desc.Offset + desc.Length)).take (nextOff - (desc.Offset + desc.Length)) := by
  have htn : ((nextOff : Int) - ((desc.Offset : Int) + (desc.Length : Int))).toNat
      = nextOff - (desc.Offset + desc.Length) := by omega
  simp only [mkWem, htn]

theorem slice_payload_pad (p : List Nat) (a n c : Nat) (h : a + n ≤ c) :
    (p.drop a).take n ++ (p.drop (a + n)).take (c - (a + n)) = (p.drop a).take (c - a) := by
  have hg := slice_glue p a (a + n) c (by omega) h
  rw [show a + n - a = n from by omega] at hg
  exact hg

theorem buildWems_cover (rs : List WemDescriptor) (M : List (Nat × WemDescriptor))
    (payload rest : List Nat) (cur : Nat)
    (hlook : ∀ d ∈ rs, mlookup M d.WemId = some d)
    (hchain : chainOKb cur rs payload.length = true) :
    ((buildWems M (payload ++ rest) payload.length (rs.map WemDescriptor.WemId)).map
        (fun w => w.Reader ++ w.RemainingReader)).flatten
      = (payload.drop cur).take (payload.length - cur) := by
  induction rs generalizing cur with
  | nil =>
    simp only [chainOKb, decide_eq_true_eq] at hchain
    simp [buildWems, hchain]
  | cons d tl ih =>
    have hld : mgetD M d.WemId = d := by
      simp [mgetD, hlook d (by simp)]
    cases tl with
    | nil =>
      simp only [chainOKb, Bool.and_eq_true, decide_eq_true_eq] at hchain
      obtain ⟨hcur, hend⟩ := hchain
      simp only [List.map_cons, List.map_nil, buildWems, hld, List.flatten_cons,
        List.flatten_nil, List.append_nil]
      rw [mkWem_bytes _ _ _ hend]
      rw [slice_clip payload rest d.Offset d.Length (by omega),
        slice_clip payload rest (d.Offset + d.Length) _ (by omega)]
      rw [slice_payload_pad payload d.Offset d.Length payload.length hend]
      rw [hcur]
    | cons d2 tl2 =>
      simp only [chainOKb, Bool.and_eq_true, decide_eq_true_eq] at hchain
      obtain ⟨⟨hcur, hend⟩, hchain2⟩ := hchain
      have hld2 : mgetD M d2.WemId = d2 := by
        simp [mgetD, hlook d2 (by simp)]
      have hd2le : d2.Offset ≤ payload.length := chainOKb_le _ _ _ hchain2
      simp only [List.map_cons, buildWems, hld, hld2, List.flatten_cons]
      rw [show d2.WemId :: List.map WemDescriptor.WemId tl2
          = List.map WemDescriptor.WemId (d2 :: tl2) from rfl]
      rw [ih d2.Offset (fun d' hd' => hlook d' (by simp [hd'])) hchain2]
      rw [mkWem_bytes _ _ _ hend]
      rw [slice_clip payload rest d.Offset d.Length (by omega),
        slice_clip payload rest (d.Offset + d.Length) _ (by omega)]
      rw [slice_payload_pad payload d.Offset d.Length d2.Offset hend]
      rw [slice_glue payload d.Offset d2.Offset payload.length (by omega) hd2le]
      rw [hcur]

theorem wf_data_writeTo (rs : List WemDescriptor) (payload rest : List Nat) (start : Nat)
    (hdup : firstDupIn [] rs = none) (hchain : chainOKb 0 rs payload.length = true) :
    DataSection.WriteTo
        ⟨⟨dataHeaderId, payload.length⟩, start,
          buildWems (bindAll [] rs) (payload ++ rest) payload.length
            (rs.map WemDescriptor.WemId)⟩
      = encDATA payload := by
  simp only [DataSection.WriteTo, encDATA, encChunk, encodeSectionHeader]
  rw [buildWems_cover rs (bindAll [] rs) payload rest 0
    (fun d hd => bindAll_lookup rs [] d hdup hd) hchain]
  simp

end Bnk

namespace Bnk

/-- C1 counterexample: the input `cx1bytes` parses successfully, but the
serialized data chunk (header only, 8 bytes) is not byte-identical to the
original data chunk (12 bytes including the payload): the index covers none
of the payload, so serialization drops it. -/
theorem C1_roundtrip_counterexample :
    dataChunkOut (NewFile cx1bytes) = some [68, 65, 84, 65, 4, 0, 0, 0]
    ∧ cx1bytes.drop 8 = [68, 65, 84, 65, 4, 0, 0, 0, 170, 170, 170, 170]
    ∧ ([68, 65, 84, 65, 4, 0, 0, 0] : List Nat)
        ≠ [68, 65, 84, 65, 4, 0, 0, 0, 170, 170, 170, 170] := by
  decide

/-- C1 (amended): round-trip holds for well-formed container inputs: a BKHD
chunk with in-range fields, a DIDX chunk of exactly 12·n bytes whose records
have in-range fields and no repeated id, a DATA chunk whose records chain
from offset 0 with non-overlapping ascending spans inside the payload, and
trailing unknown chunks with non-reserved 4-byte tags.  Parsing succeeds and
serialization reproduces the bank-header, index and data chunks
byte-identically, preserves every unknown chunk verbatim, and the whole
serialized file equals the input. -/
theorem C1_roundtrip_wellformed (v b : Nat) (extra : List Nat) (rs : List WemDescriptor)
    (payload : List Nat) (unks : List (List Nat × List Nat))
    (hv : v < 4294967296) (hb : b < 4294967296) (he : 8 + extra.length < 4294967296)
    (hf : ∀ d ∈ rs, descFieldsOKb d = true) (hdup : firstDupIn [] rs = none)
    (hrslen : 12 * rs.length < 4294967296) (hpl : payload.length < 4294967296)
    (hok : ∀ u ∈ unks, unkOK u) (hchain : chainOKb 0 rs payload.length = true) :
    ∃ f, NewFile (wfBytes v b extra rs payload unks) = .ok f
      ∧ f.BankHeaderSection.map BankHeaderSection.WriteTo = some (encBKHD v b extra)
      ∧ f.IndexSection.map DataIndexSection.WriteTo = some (encDIDX rs)
      ∧ f.DataSection.map DataSection.WriteTo = some (encDATA payload)
      ∧ f.Others.map UnknownSection.WriteTo = unks.map (fun u => encChunk u.1 u.2)
      ∧ f.WriteTo = some (wfBytes v b extra rs payload unks) := by
  refine ⟨wfFile v b extra rs payload unks,
    NewFile_wf v b extra rs payload unks hv hb he hf hdup hrslen hpl hok, ?_, ?_, ?_, ?_, ?_⟩
  · simp only [wfFile, Option.map_some']
    rw [wf_bkhd_writeTo]
  · simp only [wfFile, Option.map_some']
    rw [wf_didx_writeTo rs hdup]
  · simp only [wfFile, Option.map_some']
    rw [wf_data_writeTo rs payload (encUnknowns unks) _ hdup hchain]
  · simp only [wfFile]
    rw [List.map_map]
    rfl
  · show File.WriteTo (wfFile v b extra rs payload unks) = _
    simp only [File.WriteTo, wfFile]
    rw [wf_bkhd_writeTo, wf_didx_writeTo rs hdup,
      wf_data_writeTo rs payload (encUnknowns unks) _ hdup hchain]
    have hunkmap : ((unks.map (fun u => (⟨⟨u.1, u.2.length⟩, u.2⟩ : UnknownSection))).map
        UnknownSection.WriteTo).flatten = encUnknowns unks := by
      rw [List.map_map]
      rfl
    rw [hunkmap]
    simp [wfBytes, List.append_assoc]

/-- C1 witness: the amended round-trip at a concrete container holding a
bank header, one wem, alignment padding and one unknown chunk. -/
theorem C1_roundtrip_wellformed_witness :
    ∃ f, NewFile (wfBytes 1 2 [7, 7] [⟨1, 0, 4⟩] [170, 170, 170, 170, 0, 0, 0, 0]
        [([88, 88, 88, 88], [9])]) = .ok f
      ∧ f.BankHeaderSection.map BankHeaderSection.WriteTo = some (encBKHD 1 2 [7, 7])
      ∧ f.IndexSection.map DataIndexSection.WriteTo = some (encDIDX [⟨1, 0, 4⟩])
      ∧ f.DataSection.map DataSection.WriteTo
          = some (encDATA [170, 170, 170, 170, 0, 0, 0, 0])
      ∧ f.Others.map UnknownSection.WriteTo
          = [([88, 88, 88, 88], [9])].map (fun u => encChunk u.1 u.2)
      ∧ f.WriteTo = some (wfBytes 1 2 [7, 7] [⟨1, 0, 4⟩] [170, 170, 170, 170, 0, 0, 0, 0]
          [([88, 88, 88, 88], [9])]) :=
  C1_roundtrip_wellformed 1 2 [7, 7] [⟨1, 0, 4⟩] [170, 170, 170, 170, 0, 0, 0, 0]
    [([88, 88, 88, 88], [9])] (by decide) (by decide) (by decide) (by decide) (by decide)
    (by decide) (by decide) (by decide) (by decide)

end Bnk

namespace Bnk

theorem parseStep_preserves (rem : List Nat) (pos : Nat) (bnk : File) (rest : List Nat)
    (pos2 : Nat) (bnk2 : File)
    (h : parseStep rem pos bnk = .ok (some (rest, pos2, bnk2))) :
    bnk2.closer = bnk.closer
    ∧ (bnk2.DataSection = bnk.DataSection
        ∨ ∃ hdr start idx, bnk.IndexSection = some idx
            ∧ bnk2.DataSection
              = some ⟨hdr, start, buildWems idx.DescriptorMap (rem.drop 8) hdr.Length idx.WemIds⟩) := by
  unfold parseStep at h
  simp only [] at h
  split at h
  · cases h
  · split at h
    · cases h
    · split at h
      · split at h
        · cases h
        · simp only [Except.ok.injEq, Option.some.injEq, Prod.mk.injEq] at h
          obtain ⟨h1, h2, h3⟩ := h
          subst h3
          exact ⟨rfl, Or.inl rfl⟩
      · split at h
        · split at h
          · cases h
          · simp only [Except.ok.injEq, Option.some.injEq, Prod.mk.injEq] at h
            obtain ⟨h1, h2, h3⟩ := h
            subst h3
            exact ⟨rfl, Or.inl rfl⟩
        · split at h
          · split at h
            · cases h
            · rename_i heq
              unfold NewDataSection at heq
              split at heq
              · cases heq
              · split at heq
                · cases heq
                · rename_i idx hidx
                  simp only [Except.ok.injEq, Prod.mk.injEq] at heq
                  obtain ⟨hsec, hrest, hadv⟩ := heq
                  simp only [Except.ok.injEq, Option.some.injEq, Prod.mk.injEq] at h
                  obtain ⟨h1, h2, h3⟩ := h
                  subst h3
                  subst hsec
                  exact ⟨rfl, Or.inr ⟨_, _, idx, hidx, rfl⟩⟩
          · simp only [Except.ok.injEq, Option.some.injEq, Prod.mk.injEq] at h
            obtain ⟨h1, h2, h3⟩ := h
            subst h3
            exact ⟨rfl, Or.inl rfl⟩

end Bnk

namespace Bnk

theorem parseLoop_inv (fuel : Nat) (rem : List Nat) (pos : Nat) (bnk : File) (f : File)
    (h : parseLoop fuel rem pos bnk = .ok f) :
    f.closer = bnk.closer
    ∧ ((∀ ds, bnk.DataSection = some ds → DSGood ds) → ∀ ds, f.DataSection = some ds → DSGood ds) := by
  induction fuel generalizing rem pos bnk with
  | zero =>
    simp [parseLoop] at h
  | succ n ih =>
    simp only [parseLoop] at h
    cases hstep : parseStep rem pos bnk with
    | error e =>
      rw [hstep] at h
      cases h
    | ok o =>
      rw [hstep] at h
      cases o with
      | none =>
        simp only [Except.ok.injEq] at h
        subst h
        exact ⟨rfl, fun hg => hg⟩
      | some trip =>
        obtain ⟨rest, pos2, bnk2⟩ := trip
        obtain ⟨hcl, hds⟩ := parseStep_preserves rem pos bnk rest pos2 bnk2 hstep
        obtain ⟨ihc, ihd⟩ := ih rest pos2 bnk2 h
        refine ⟨by rw [ihc, hcl], ?_⟩
        intro hg
        refine ihd ?_
        rcases hds with heq | ⟨hdr, start, idx, hidx, heq⟩
        · intro ds hds2
          exact hg ds (by rw [← heq]; exact hds2)
        · intro ds hds2
          rw [heq] at hds2
          injection hds2 with h2
          subst h2
          exact ⟨idx.DescriptorMap, rem.drop 8, idx.WemIds, rfl⟩

theorem NewFile_inv (data : List Nat) (f : File) (h : NewFile data = .ok f) :
    f.closer = none ∧ ∀ ds, f.DataSection = some ds → DSGood ds := by
  unfold NewFile at h
  cases hp : parseLoop (data.length + 1) data 0 emptyFile with
  | error e =>
    rw [hp] at h
    cases h
  | ok f0 =>
    rw [hp] at h
    obtain ⟨hc, hd⟩ := parseLoop_inv _ _ _ _ _ hp
    by_cases hds : f0.DataSection.isNone
    · simp [hds] at h
    · simp [hds] at h
      subst h
      exact ⟨hc, hd (fun ds hds2 => by simp [emptyFile] at hds2)⟩

theorem wemSpanSum_cons (w : Wem) (ws : List Wem) :
    wemSpanSum (w :: ws) = ((w.Descriptor.Length : Int) + w.RemainingLength) + wemSpanSum ws := by
  simp [wemSpanSum]

theorem buildWems_spanSum (M : List (Nat × WemDescriptor)) (arena : List Nat) (dataLen : Nat)
    (i : Nat) (ids : List Nat) :
    wemSpanSum (buildWems M arena dataLen (i :: ids))
      = (dataLen : Int) - ((mgetD M i).Offset : Int) := by
  induction ids generalizing i with
  | nil =>
    simp only [buildWems, wemSpanSum, List.map_cons, List.map_nil, List.sum_cons,
      List.sum_nil, mkWem]
    ring
  | cons j tl ih =>
    rw [show buildWems M arena dataLen (i :: j :: tl)
        = mkWem arena (mgetD M i) (mgetD M j).Offset :: buildWems M arena dataLen (j :: tl)
      from rfl]
    rw [wemSpanSum_cons, ih j]
    simp only [mkWem]
    ring

theorem buildWems_head (M : List (Nat × WemDescriptor)) (arena : List Nat) (dataLen : Nat)
    (i : Nat) (ids : List Nat) :
    ∃ nextOff, (buildWems M arena dataLen (i :: ids)).head?
      = some (mkWem arena (mgetD M i) nextOff) := by
  cases ids with
  | nil => exact ⟨dataLen, rfl⟩
  | cons j tl => exact ⟨(mgetD M j).Offset, rfl⟩

end Bnk

namespace Bnk

theorem map_set_sum (l : List Wem) (i : Nat) (x : Wem) (f : Wem → Nat)
    (hi : i < l.length) (hx : f x = f (l.get ⟨i, hi⟩)) :
    ((l.set i x).map f).sum = (l.map f).sum := by
  induction l generalizing i with
  | nil => cases hi
  | cons hd tl ih =>
    cases i with
    | zero =>
      simp only [List.set_cons_zero, List.map_cons, List.sum_cons]
      rw [hx]
      rfl
    | succ n =>
      simp only [List.set_cons_succ, List.map_cons, List.sum_cons]
      rw [ih n (by simpa using hi) (by simpa using hx)]

theorem DataSection_WriteTo_length (ds : DataSection) :
    (DataSection.WriteTo ds).length
      = (encodeSectionHeader ds.Header).length
        + ((ds.Wems.map (fun w => w.Reader.length + w.RemainingReader.length)).sum) := by
  simp only [DataSection.WriteTo, List.length_append, List.length_flatten, List.map_map]
  congr 1
  apply congrArg
  apply List.map_congr_left
  intro w _
  simp [Function.comp]

/-- C2 counterexample: the container `cx2bytes` parses successfully with a
single wem at offset 4, and the sum of descriptor length and trailing length
is 4, not the data chunk header length 8; moreover, a valid replacement on
the concrete-scenario container drops that sum from 8 to 6 because ReplaceWem
leaves the RemainingLength field stale. -/
theorem C2_span_counterexample :
    NewFile cx2bytes = .ok cx2parsed
    ∧ cx2parsed.DataSection.map (fun ds => (wemSpanSum ds.Wems, (ds.Header.Length : Int)))
        = some (4, 8)
    ∧ (4 : Int) ≠ 8
    ∧ NewFile c5bytes = .ok c5parsed
    ∧ c5replaced.2 = none
    ∧ c5parsed.DataSection.map (fun ds => wemSpanSum ds.Wems) = some 8
    ∧ c5replaced.1.DataSection.map (fun ds => wemSpanSum ds.Wems) = some 6 := by
  decide

/-- C2 (amended): for every successfully parsed container, the sum over all
wems of descriptor length plus computed trailing length equals the data
header length minus the first wem's offset (the header length itself exactly
when the first wem starts at offset 0); and a replacement satisfying the
precondition preserves the byte length of the serialized data chunk (the
padding reader absorbs the shrink), although it leaves the RemainingLength
field itself stale. -/
theorem C2_span_sum :
    (∀ data f ds w, NewFile data = .ok f → f.DataSection = some ds →
        ds.Wems.head? = some w →
        wemSpanSum ds.Wems = (ds.Header.Length : Int) - (w.Descriptor.Offset : Int))
    ∧ (∀ f ds i r len, f.DataSection = some ds → ∀ hi : i < ds.Wems.length,
        0 ≤ len → len ≤ ((ds.Wems.get ⟨i, hi⟩).Descriptor.Length : Int) →
        len.toNat ≤ r.length →
        (ds.Wems.get ⟨i, hi⟩).Reader.length = (ds.Wems.get ⟨i, hi⟩).Descriptor.Length →
        0 ≤ (ds.Wems.get ⟨i, hi⟩).RemainingLength →
        (ds.Wems.get ⟨i, hi⟩).RemainingReader.length
          = (ds.Wems.get ⟨i, hi⟩).RemainingLength.toNat →
        ∃ ds', (ReplaceWem f i r len).1.DataSection = some ds'
          ∧ (DataSection.WriteTo ds').length = (DataSection.WriteTo ds).length) := by
  constructor
  · intro data f ds w hnf hds hw
    obtain ⟨hc, hgood⟩ := NewFile_inv data f hnf
    obtain ⟨m, arena, ids, hwems⟩ := hgood ds hds
    cases ids with
    | nil =>
      rw [hwems] at hw
      cases hw
    | cons i ids =>
      obtain ⟨nextOff, hhead⟩ := buildWems_head m arena ds.Header.Length i ids
      rw [hwems, buildWems_spanSum m arena ds.Header.Length i ids]
      rw [hwems, hhead] at hw
      injection hw with hw2
      rw [← hw2]
      rfl
  · intro f ds i r len hds hi h0 hlen hsrc hrd hpad0 hpadlen
    have hsumeq : ∀ wem2 : Wem,
        (fun w => w.Reader.length + w.RemainingReader.length) wem2
            = (fun w => w.Reader.length + w.RemainingReader.length) (ds.Wems.get ⟨i, hi⟩) →
        ((ds.Wems.set i wem2).map (fun w => w.Reader.length + w.RemainingReader.length)).sum
          = (ds.Wems.map (fun w => w.Reader.length + w.RemainingReader.length)).sum :=
      fun wem2 hx => map_set_sum ds.Wems i wem2 _ hi hx
    have hspan : ∀ wem2 : Wem,
        wem2.Reader = r.take len.toNat →
        wem2.RemainingReader
          = List.replicate ((((ds.Wems.get ⟨i, hi⟩).Descriptor.Length : Int) - len)
              + (ds.Wems.get ⟨i, hi⟩).RemainingLength).toNat 0 →
        wem2.Reader.length + wem2.RemainingReader.length
          = (ds.Wems.get ⟨i, hi⟩).Reader.length + (ds.Wems.get ⟨i, hi⟩).RemainingReader.length := by
      intro wem2 hr2 hp2
      rw [hr2, hp2, hrd, hpadlen]
      simp only [List.length_take, List.length_replicate]
      omega
    unfold ReplaceWem
    rw [hds]
    try simp only []
    rw [dif_pos hi]
    rw [if_neg (by omega)]
    try simp only []
    cases hidxs : f.IndexSection with
    | none =>
      refine ⟨_, rfl, ?_⟩
      rw [DataSection_WriteTo_length, DataSection_WriteTo_length]
      simp only []
      rw [hsumeq _ (hspan _ rfl rfl)]
    | some idx =>
      refine ⟨_, rfl, ?_⟩
      rw [DataSection_WriteTo_length, DataSection_WriteTo_length]
      simp only []
      rw [hsumeq _ (hspan _ rfl rfl)]

/-- C2 witness: the amended theorem at the concrete-scenario container and
its replacement of wem 0 by two bytes. -/
theorem C2_span_sum_witness :
    (wemSpanSum c5ds.Wems = (c5ds.Header.Length : Int) - (c5w.Descriptor.Offset : Int))
    ∧ ∃ ds', (ReplaceWem c5parsed 0 [187, 187] 2).1.DataSection = some ds'
        ∧ (DataSection.WriteTo ds').length = (DataSection.WriteTo c5ds).length :=
  ⟨C2_span_sum.1 c5bytes c5parsed c5ds c5w (by decide) (by decide) (by decide),
   C2_span_sum.2 c5parsed c5ds 0 [187, 187] 2 (by decide) (by decide) (by decide) (by decide)
     (by decide) (by decide) (by decide) (by decide)⟩

end Bnk

namespace Bnk

theorem ReplaceWems_append (f : File) (a b : List ReplacementWem) :
    ReplaceWems f (a ++ b)
      = match ReplaceWems f a with
        | (g, none) => ReplaceWems g b
        | (g, some e) => (g, some e) := by
  induction a generalizing f with
  | nil => rfl
  | cons r tl ih =>
    simp only [List.cons_append, ReplaceWems]
    cases hrw : ReplaceWem f r.WemIndex r.Wem r.Length with
    | mk g e =>
      cases e with
      | none => exact ih g
      | some err => rfl

theorem ReplaceWem_growth (f : File) (ds : DataSection) (i : Nat) (r : List Nat) (len : Int)
    (hds : f.DataSection = some ds) (hi : i < ds.Wems.length)
    (hg : ((ds.Wems.get ⟨i, hi⟩).Descriptor.Length : Int) < len) :
    ReplaceWem f i r len = (f, some .unsupportedGrowth) := by
  unfold ReplaceWem
  rw [hds]
  try simp only []
  rw [dif_pos hi]
  rw [if_pos (by omega)]

/-- C3 counterexample: a batch whose first entry is a valid shrink and whose
second entry asks for growth fails with the growth panic but leaves the
container mutated by the first entry, so the batched form does not leave the
Container unmodified. -/
theorem C3_growth_counterexample :
    (ReplaceWems cx3file cx3batch).2 = some .unsupportedGrowth
    ∧ (ReplaceWems cx3file cx3batch).1 ≠ cx3file := by
  decide

/-- C3 (amended): a single replacement whose length exceeds the target's
descriptor length fails with the growth panic and leaves the Container
unmodified; a batch fails with the growth panic at the first oversized entry
and applies no mutation from that entry on, but entries earlier in the batch
remain applied (the state is exactly the one the valid prefix produced). -/
theorem C3_growth_rejection :
    (∀ (f : File) (ds : DataSection) (i : Nat) (r : List Nat) (len : Int),
        f.DataSection = some ds → ∀ hi : i < ds.Wems.length,
        ((ds.Wems.get ⟨i, hi⟩).Descriptor.Length : Int) < len →
        ReplaceWem f i r len = (f, some .unsupportedGrowth))
    ∧ (∀ (f g : File) (pre : List ReplacementWem) (r : ReplacementWem)
        (rs : List ReplacementWem) (ds : DataSection),
        ReplaceWems f pre = (g, none) → g.DataSection = some ds →
        ∀ hi : r.WemIndex < ds.Wems.length,
        ((ds.Wems.get ⟨r.WemIndex, hi⟩).Descriptor.Length : Int) < r.Length →
        ReplaceWems f (pre ++ r :: rs) = (g, some .unsupportedGrowth)) := by
  constructor
  · intro f ds i r len hds hi hg
    exact ReplaceWem_growth f ds i r len hds hi hg
  · intro f g pre r rs ds hpre hds hi hg
    rw [ReplaceWems_append, hpre]
    show ReplaceWems g (r :: rs) = _
    simp only [ReplaceWems]
    rw [ReplaceWem_growth g ds r.WemIndex r.Wem r.Length hds hi hg]

/-- C3 witness: the growth rejection at the two-wem container, in single form
and as a batch starting with the oversized entry. -/
theorem C3_growth_rejection_witness :
    ReplaceWem cx3file 0 [9, 9, 9, 9, 9] 5 = (cx3file, some .unsupportedGrowth)
    ∧ ReplaceWems cx3file ([] ++ ⟨[9, 9, 9, 9, 9], 0, 5⟩ :: [])
        = (cx3file, some .unsupportedGrowth) :=
  ⟨C3_growth_rejection.1 cx3file (cx3file.DataSection.getD ⟨⟨[], 0⟩, 0, []⟩) 0 [9, 9, 9, 9, 9] 5
      (by decide) (by decide) (by decide),
   C3_growth_rejection.2 cx3file cx3file [] ⟨[9, 9, 9, 9, 9], 0, 5⟩ []
      (cx3file.DataSection.getD ⟨⟨[], 0⟩, 0, []⟩) (by decide) (by decide) (by decide) (by decide)⟩

end Bnk

namespace Bnk

theorem ReplaceWem_frame (f : File) (i : Nat) (r : List Nat) (len : Int) :
    (∀ j, j ≠ i → wemAt (ReplaceWem f i r len).1 j = wemAt f j)
    ∧ (∀ j, offsetAt (ReplaceWem f i r len).1 j = offsetAt f j) := by
  unfold ReplaceWem
  cases hds : f.DataSection with
  | none => exact ⟨fun j _ => rfl, fun j => rfl⟩
  | some ds =>
    try simp only []
    by_cases hi : i < ds.Wems.length
    · rw [dif_pos hi]
      by_cases hg : len > ((ds.Wems.get ⟨i, hi⟩).Descriptor.Length : Int)
      · rw [if_pos hg]
        exact ⟨fun j _ => rfl, fun j => rfl⟩
      · rw [if_neg hg]
        try simp only []
        have hkey : ∀ (g : File) (w : Wem),
            g.DataSection = some { ds with Wems := ds.Wems.set i w } →
            w.Descriptor.Offset = (ds.Wems.get ⟨i, hi⟩).Descriptor.Offset →
            (∀ j, j ≠ i → wemAt g j = wemAt f j) ∧ (∀ j, offsetAt g j = offsetAt f j) := by
          intro g w hg2 hw
          constructor
          · intro j hji
            simp only [wemAt, hg2, hds, Option.some_bind]
            rw [List.getElem?_set_ne (fun hh => hji hh.symm)]
          · intro j
            by_cases hji : j = i
            · subst hji
              simp only [offsetAt, wemAt, hg2, hds, Option.some_bind]
              rw [List.getElem?_set_self hi]
              rw [show ds.Wems[j]? = some (ds.Wems.get ⟨j, hi⟩) from List.getElem?_eq_getElem hi]
              simp [hw]
            · simp only [offsetAt, wemAt, hg2, hds, Option.some_bind]
              rw [List.getElem?_set_ne (fun hh => hji hh.symm)]
        cases hidxs : f.IndexSection with
        | none =>
          try simp only []
          exact hkey _ _ rfl rfl
        | some idx =>
          try simp only []
          exact hkey _ _ rfl rfl
    · rw [dif_neg hi]
      exact ⟨fun j _ => rfl, fun j => rfl⟩

theorem ReplaceWems_frame (rs : List ReplacementWem) (f : File) :
    (∀ j, j ∉ rs.map ReplacementWem.WemIndex → wemAt (ReplaceWems f rs).1 j = wemAt f j)
    ∧ (∀ j, offsetAt (ReplaceWems f rs).1 j = offsetAt f j) := by
  induction rs generalizing f with
  | nil => exact ⟨fun j _ => rfl, fun j => rfl⟩
  | cons r tl ih =>
    simp only [ReplaceWems]
    cases hrw : ReplaceWem f r.WemIndex r.Wem r.Length with
    | mk g e =>
      have hstep := ReplaceWem_frame f r.WemIndex r.Wem r.Length
      rw [hrw] at hstep
      cases e with
      | none =>
        obtain ⟨ht, ho⟩ := ih g
        constructor
        · intro j hj
          simp only [List.map_cons, List.mem_cons] at hj
          push_neg at hj
          rw [ht j hj.2, hstep.1 j hj.1]
        · intro j
          rw [ho j, hstep.2 j]
      | some err =>
        constructor
        · intro j hj
          simp only [List.map_cons, List.mem_cons] at hj
          push_neg at hj
          exact hstep.1 j hj.1
        · intro j
          exact hstep.2 j

/-- C4: a single replacement satisfying the precondition leaves the wem at
every other index untouched and every wem's descriptor offset unchanged,
including the replaced one; a successful batch leaves untargeted indices
untouched and all offsets unchanged. -/
theorem C4_offset_invariance :
    (∀ (f : File) (ds : DataSection) (i : Nat) (r : List Nat) (len : Int),
        f.DataSection = some ds → ∀ hi : i < ds.Wems.length,
        len ≤ ((ds.Wems.get ⟨i, hi⟩).Descriptor.Length : Int) →
        (∀ j, j ≠ i → wemAt (ReplaceWem f i r len).1 j = wemAt f j)
        ∧ (∀ j, offsetAt (ReplaceWem f i r len).1 j = offsetAt f j))
    ∧ (∀ (f g : File) (rs : List ReplacementWem), ReplaceWems f rs = (g, none) →
        (∀ j, j ∉ rs.map ReplacementWem.WemIndex → wemAt g j = wemAt f j)
        ∧ (∀ j, offsetAt g j = offsetAt f j)) := by
  constructor
  · intro f ds i r len _ _ _
    exact ReplaceWem_frame f i r len
  · intro f g rs hrs
    have := ReplaceWems_frame rs f
    rw [hrs] at this
    exact this

/-- C4 witness: replacing wem 0 of the two-wem container leaves wem 1
untouched and both offsets unchanged, for the single call and for a
successful batch. -/
theorem C4_offset_invariance_witness :
    (wemAt (ReplaceWem cx3file 0 [7] 1).1 1 = wemAt cx3file 1
      ∧ offsetAt (ReplaceWem cx3file 0 [7] 1).1 0 = offsetAt cx3file 0)
    ∧ (wemAt (ReplaceWems cx3file [⟨[7], 0, 1⟩]).1 1 = wemAt cx3file 1
      ∧ offsetAt (ReplaceWems cx3file [⟨[7], 0, 1⟩]).1 0 = offsetAt cx3file 0) :=
  have h1 := C4_offset_invariance.1 cx3file (cx3file.DataSection.getD ⟨⟨[], 0⟩, 0, []⟩)
    0 [7] 1 (by decide) (by decide) (by decide)
  have h2 := C4_offset_invariance.2 cx3file (ReplaceWems cx3file [⟨[7], 0, 1⟩]).1
    [⟨[7], 0, 1⟩] (by decide)
  ⟨⟨h1.1 1 (by decide), h1.2 0⟩, ⟨h2.1 1 (by decide), h2.2 0⟩⟩

end Bnk

namespace Bnk

/-- C5: parsing the concrete-scenario container and replacing wem 0 with the
two bytes 0xBB 0xBB succeeds, yields descriptor (1, 0, 2), and serializing
the data chunk writes its 8-byte header followed by exactly the 8
payload-plus-padding bytes BB BB 00 00 00 00 00 00. -/
theorem C5_concrete_scenario :
    NewFile c5bytes = .ok c5parsed
    ∧ c5replaced.2 = none
    ∧ c5replaced.1.DataSection.map (fun ds => ds.Wems.map Wem.Descriptor) = some [⟨1, 0, 2⟩]
    ∧ c5replaced.1.DataSection.map DataSection.WriteTo
        = some ([68, 65, 84, 65, 8, 0, 0, 0] ++ [187, 187, 0, 0, 0, 0, 0, 0]) := by
  decide

theorem firstDupIn_some_count (rs : List WemDescriptor) (m : List (Nat × WemDescriptor))
    (d : Nat) (h : firstDupIn m rs = some d) :
    d ∈ rs.map WemDescriptor.WemId
    ∧ ((mlookup m d).isSome = true ∨ 2 ≤ (rs.map WemDescriptor.WemId).count d) := by
  induction rs generalizing m with
  | nil => cases h
  | cons u tl ih =>
    simp only [firstDupIn] at h
    by_cases hcase : (mlookup m u.WemId).isSome = true
    · rw [if_pos hcase] at h
      injection h with h2
      subst h2
      exact ⟨by simp, Or.inl hcase⟩
    · rw [if_neg hcase] at h
      obtain ⟨hmem, hrest⟩ := ih (minsert m u.WemId u) h
      refine ⟨by simp [hmem], ?_⟩
      rcases hrest with hsome | hcount
      · by_cases hdu : d = u.WemId
        · subst hdu
          right
          have h1 : 0 < (tl.map WemDescriptor.WemId).count u.WemId :=
            List.count_pos_iff.mpr hmem
          simp only [List.map_cons, List.count_cons, beq_iff_eq, if_true]
          exact Nat.succ_le_succ h1
        · left
          rw [mlookup_minsert_ne _ _ _ _ hdu] at hsome
          exact hsome
      · right
        simp only [List.map_cons, List.count_cons, beq_iff_eq]
        split
        · exact le_trans hcount (Nat.le_add_right _ _)
        · exact hcount

/-- C6: a DIDX chunk whose records repeat a wem id makes the parse abort at
the first repeated id with the duplicate-id panic, which carries that id; the
id is genuinely duplicated (it occurs at least twice), and no Container is
returned. -/
theorem C6_duplicate_id (rs : List WemDescriptor) (rest : List Nat) (d : Nat)
    (hf : ∀ d2 ∈ rs, descFieldsOKb d2 = true) (hdup : firstDupIn [] rs = some d)
    (hlen : 12 * rs.length < 4294967296) :
    NewFile (encDIDX rs ++ rest) = .error (.panicDuplicateWemId d)
    ∧ 2 ≤ (rs.map WemDescriptor.WemId).count d := by
  constructor
  · exact NewFile_err _ _
      (parseLoop_err _ _ _ _ _ (parseStep_didx_dup 0 emptyFile rs rest d hf hdup hlen))
  · have := firstDupIn_some_count rs [] d hdup
    rcases this.2 with hsome | hcount
    · cases hsome
    · exact hcount

/-- C6 witness: two records sharing id 5 abort the parse with the
duplicate-id panic carrying 5. -/
theorem C6_duplicate_id_witness :
    NewFile (encDIDX [⟨5, 0, 4⟩, ⟨5, 4, 4⟩] ++ []) = .error (.panicDuplicateWemId 5)
    ∧ 2 ≤ (([⟨5, 0, 4⟩, ⟨5, 4, 4⟩] : List WemDescriptor).map WemDescriptor.WemId).count 5 :=
  C6_duplicate_id [⟨5, 0, 4⟩, ⟨5, 4, 4⟩] [] 5 (by decide) (by decide) (by decide)

/-- C7: when the chunk scan consumes the whole input cleanly without having
met a DATA chunk (no data section was built), NewFile fails with the
missing-data-chunk error instead of returning a Container. -/
theorem C7_missing_data (data : List Nat) (f : File)
    (h : parseLoop (data.length + 1) data 0 emptyFile = .ok f)
    (hds : f.DataSection = none) :
    NewFile data = .error .missingDataChunk :=
  NewFile_missing data f h hds

/-- C7 witness: a byte sequence holding only a bank-header chunk fails with
the missing-data-chunk error. -/
theorem C7_missing_data_witness :
    parseLoop (w7bytes.length + 1) w7bytes 0 emptyFile = .ok w7file
    ∧ w7file.DataSection = none
    ∧ NewFile w7bytes = .error .missingDataChunk :=
  ⟨by decide, by decide, C7_missing_data w7bytes w7file (by decide) (by decide)⟩

/-- C8 counterexample: on an input whose first chunk is a DATA chunk, NewFile
aborts with the nil-index runtime panic of NewDataSection, not with the typed
DataBeforeIndex error the spec names. -/
theorem C8_data_before_index_counterexample :
    NewFile cx8bytes = .error .nilIndexPanic
    ∧ NewFile cx8bytes ≠ .error .dataBeforeIndex := by
  decide

/-- C8 (amended): whenever the first chunk of the input is a DATA chunk — so
it is encountered before any DIDX chunk — the parse aborts with the
nil-index runtime panic (the Go code dereferences the nil index section) and
returns no Container; the code has no typed DataBeforeIndex result. -/
theorem C8_data_before_index_panic (payload rest : List Nat) :
    NewFile (encDATA payload ++ rest) = .error .nilIndexPanic :=
  NewFile_err _ _ (parseLoop_err _ _ _ _ _ (parseStep_data_noidx 0 emptyFile payload rest rfl))

end Bnk

namespace Bnk

theorem mgetD_map_set (ids : List Nat) (k tid : Nat) (M : List (Nat × WemDescriptor))
    (v : WemDescriptor) (g : WemDescriptor → List Nat)
    (hnd : ids.Nodup) (hk : ids[k]? = some tid) :
    ids.map (fun i => g (mgetD (minsert M tid v) i))
      = (ids.map (fun i => g (mgetD M i))).set k (g v) := by
  induction ids generalizing k with
  | nil => cases hk
  | cons a tl ih =>
    cases k with
    | zero =>
      simp only [List.getElem?_cons_zero, Option.some.injEq] at hk
      subst hk
      simp only [List.map_cons, List.set_cons_zero]
      congr 1
      · simp [mgetD, mlookup_minsert_self]
      · refine List.map_congr_left ?_
        intro i hi
        have hne : i ≠ a := by
          intro heq
          subst heq
          exact (List.nodup_cons.mp hnd).1 hi
        rw [mgetD, mgetD, mlookup_minsert_ne _ _ _ _ hne]
    | succ n =>
      simp only [List.getElem?_cons_succ] at hk
      have htid : tid ∈ tl := List.getElem?_mem hk
      have hne : a ≠ tid := by
        intro heq
        subst heq
        exact (List.nodup_cons.mp hnd).1 htid
      simp only [List.map_cons, List.set_cons_succ]
      congr 1
      · rw [mgetD, mgetD, mlookup_minsert_ne _ _ _ _ hne]
      · exact ih n (List.nodup_cons.mp hnd).2 hk

/-- C9: for a parsed-coherent container (the index id at position k is the
replaced wem's id, with an agreeing map binding and no repeated ids), a valid
replacement keeps the id order unchanged and serializes the index chunk as
the header followed by the original records in encounter order, with exactly
the position-k record now carrying the updated length and its original id and
offset. -/
theorem C9_index_serialization (f : File) (idx : DataIndexSection) (ds : DataSection)
    (i k : Nat) (r : List Nat) (len : Int)
    (hidx : f.IndexSection = some idx) (hds : f.DataSection = some ds)
    (hi : i < ds.Wems.length)
    (hnd : idx.WemIds.Nodup)
    (hk : idx.WemIds[k]? = some ((ds.Wems.get ⟨i, hi⟩).Descriptor.WemId))
    (hbind : mlookup idx.DescriptorMap ((ds.Wems.get ⟨i, hi⟩).Descriptor.WemId)
        = some (ds.Wems.get ⟨i, hi⟩).Descriptor)
    (h0 : 0 ≤ len) (hlen : len ≤ ((ds.Wems.get ⟨i, hi⟩).Descriptor.Length : Int))
    (hsz : (ds.Wems.get ⟨i, hi⟩).Descriptor.Length < 4294967296) :
    ∃ idx', (ReplaceWem f i r len).1.IndexSection = some idx'
      ∧ idx'.WemIds = idx.WemIds
      ∧ DataIndexSection.WriteTo idx'
        = encodeSectionHeader idx.Header
          ++ ((idx.WemIds.map (fun id2 => encodeDesc (mgetD idx.DescriptorMap id2))).set k
              (encodeDesc ⟨(ds.Wems.get ⟨i, hi⟩).Descriptor.WemId,
                (ds.Wems.get ⟨i, hi⟩).Descriptor.Offset, len.toNat⟩)).flatten := by
  have hmod : len % 4294967296 = len := by omega
  unfold ReplaceWem
  rw [hds]
  try simp only []
  rw [dif_pos hi]
  rw [if_neg (by omega)]
  try simp only []
  rw [hidx]
  refine ⟨_, rfl, rfl, ?_⟩
  simp only [DataIndexSection.WriteTo]
  rw [hmod]
  rw [mgetD_map_set idx.WemIds k ((ds.Wems.get ⟨i, hi⟩).Descriptor.WemId) idx.DescriptorMap
    _ encodeDesc hnd hk]

/-- C9 witness: the index serialization after the concrete-scenario
replacement carries the updated length record at its original position. -/
theorem C9_index_serialization_witness :
    ∃ idx', (ReplaceWem c5parsed 0 [187, 187] 2).1.IndexSection = some idx'
      ∧ idx'.WemIds = c5idx.WemIds
      ∧ DataIndexSection.WriteTo idx'
        = encodeSectionHeader c5idx.Header
          ++ ((c5idx.WemIds.map (fun id2 => encodeDesc (mgetD c5idx.DescriptorMap id2))).set 0
              (encodeDesc ⟨(c5ds.Wems.get ⟨0, by decide⟩).Descriptor.WemId,
                (c5ds.Wems.get ⟨0, by decide⟩).Descriptor.Offset, (2 : Int).toNat⟩)).flatten :=
  C9_index_serialization c5parsed c5idx c5ds 0 0 [187, 187] 2 (by decide) (by decide)
    (by decide) (by decide) (by decide) (by decide) (by decide) (by decide) (by decide)

/-- C10: closing an already-closed File returns nil and leaves it unchanged
(the first call cleared the closer), and a File built by NewFile has no
closer, so every call to Close on it returns nil and has no effect. -/
theorem C10_close_idempotent :
    (∀ f : File, File.Close (File.Close f).1 = ((File.Close f).1, none))
    ∧ (∀ (data : List Nat) (f : File), NewFile data = .ok f → File.Close f = (f, none)) := by
  constructor
  · intro f
    cases hc : f.closer with
    | none => simp [File.Close, hc]
    | some res => simp [File.Close, hc]
  · intro data f h
    have hcl := (NewFile_inv data f h).1
    simp [File.Close, hcl]

/-- C10 witness: double close on a hand-built File, and close on the parsed
concrete-scenario File. -/
theorem C10_close_idempotent_witness :
    File.Close (File.Close cx3file).1 = ((File.Close cx3file).1, none)
    ∧ File.Close c5parsed = (c5parsed, none) :=
  ⟨C10_close_idempotent.1 cx3file, C10_close_idempotent.2 c5bytes c5parsed (by decide)⟩

end Bnk

namespace Bnk

/-- C8 witness: the amended statement at the concrete DATA-first input. -/
theorem C8_data_before_index_panic_witness :
    NewFile (encDATA [1, 2, 3, 4] ++ []) = .error .nilIndexPanic :=
  C8_data_before_index_panic [1, 2, 3, 4] []

end Bnk
